import Mathlib

/-!
# Verification of the audio effect-processing and export pipeline

A shallow embedding, in Lean 4, of the core of a browser-based audio editor:
the effect-descriptor model and its schema validation, the offline and
realtime signal-chain builders, the automation envelopes scheduled on effect
parameters, the realtime playback-position bookkeeping, the track mixer, and
the WAV / MP3 encoders.  Times, sample values and parameter values are
modelled as exact rationals (the source computes with IEEE doubles; every
property examined here is piecewise-linear arithmetic).  Byte output is
modelled as `List ℕ` with each entry `< 256`.  External collaborators
(the Web Audio DSP interior of a node, the lamejs frame encoder) are
parameters of the definitions that use them, so every theorem quantifies
over their behaviour.
-/

namespace AudioEdit

/-! ## Numeric helpers

JavaScript `ToInteger` truncation (round toward zero), `Math.round`
(round half toward positive infinity) and `Math.ceil`, on exact rationals. -/

/-- Truncation toward zero, as performed by JavaScript when a double is
stored through `DataView.setInt16/setInt32` or into an `Int16Array`. -/
def jsTrunc (q : ℚ) : ℤ := if 0 ≤ q then ⌊q⌋ else ⌈q⌉

/-- JavaScript `Math.round`: round half toward positive infinity. -/
def jsRound (q : ℚ) : ℤ := ⌊q + 1/2⌋

/-- JavaScript `Math.ceil`. -/
def jsCeil (q : ℚ) : ℤ := ⌈q⌉

/-! ## Sample buffers

`AudioBuffer`: per-channel sample arrays sharing one length and one sample
rate.  `length` is the Web Audio `AudioBuffer.length` (frames of the first
channel; all channels agree for well-formed buffers). -/

structure SampleBuffer where
  channels : List (List ℚ)
  sampleRate : ℕ
deriving DecidableEq

def SampleBuffer.frameCount (b : SampleBuffer) : ℕ := (b.channels.headD []).length

/-! ## Effect descriptor model

Tagged union of the eight effect variants, common envelope
`{id, startTime, duration}`, from `@shared/schema` (`src/server/routes.ts`
lines 244–328).  The compressor's `ratio` field is called `ratioParam` here. -/

inductive AudioEffect where
  | panning (id : String) (startTime duration intensity : ℚ)
  | reverb (id : String) (startTime duration dryWet decay : ℚ)
  | delay (id : String) (startTime duration dryWet delayTime feedback : ℚ)
  | eq (id : String) (startTime duration lowGain midGain highGain : ℚ)
  | compressor (id : String) (startTime duration threshold ratioParam attack release : ℚ)
  | pitchshift (id : String) (startTime duration semitones : ℚ)
  | distortion (id : String) (startTime duration amount tone : ℚ)
  | chorus (id : String) (startTime duration rate depth dryWet : ℚ)
deriving DecidableEq

/-- The `type` discriminator string of a descriptor. -/
def AudioEffect.type : AudioEffect → String
  | .panning .. => "panning"
  | .reverb .. => "reverb"
  | .delay .. => "delay"
  | .eq .. => "eq"
  | .compressor .. => "compressor"
  | .pitchshift .. => "pitchshift"
  | .distortion .. => "distortion"
  | .chorus .. => "chorus"

def AudioEffect.startTime : AudioEffect → ℚ
  | .panning _ s _ _ => s
  | .reverb _ s _ _ _ => s
  | .delay _ s _ _ _ _ => s
  | .eq _ s _ _ _ _ => s
  | .compressor _ s _ _ _ _ _ => s
  | .pitchshift _ s _ _ => s
  | .distortion _ s _ _ _ => s
  | .chorus _ s _ _ _ _ => s

def AudioEffect.duration : AudioEffect → ℚ
  | .panning _ _ d _ => d
  | .reverb _ _ d _ _ => d
  | .delay _ _ d _ _ _ => d
  | .eq _ _ d _ _ _ => d
  | .compressor _ _ d _ _ _ _ => d
  | .pitchshift _ _ d _ => d
  | .distortion _ _ d _ _ => d
  | .chorus _ _ d _ _ _ => d

/-! ## Schema validation (`src/server/routes.ts` lines 244–328)

Each zod object schema accepts a record exactly when every numeric field
satisfies its `.min`/`.max` bounds.  `audioEffectSchema` is the union of the
eight variant schemas; on a tagged value it therefore accepts exactly when
the variant's own schema does. -/

/-- `audioEffectSchema` validation, one Boolean per variant, translated
clause by clause from the zod schemas. -/
def validateEffect : AudioEffect → Bool
  | .panning _ s d intensity =>
      decide (0 ≤ s) && decide (1/10 ≤ d) && decide (d ≤ 10) &&
      decide (0 ≤ intensity) && decide (intensity ≤ 100)
  | .reverb _ s d dryWet decay =>
      decide (0 ≤ s) && decide (1/10 ≤ d) &&
      decide (0 ≤ dryWet) && decide (dryWet ≤ 100) &&
      decide (1/10 ≤ decay) && decide (decay ≤ 10)
  | .delay _ s d dryWet delayTime feedback =>
      decide (0 ≤ s) && decide (1/10 ≤ d) &&
      decide (0 ≤ dryWet) && decide (dryWet ≤ 100) &&
      decide (1/20 ≤ delayTime) && decide (delayTime ≤ 2) &&
      decide (0 ≤ feedback) && decide (feedback ≤ 80)
  | .eq _ s d lowGain midGain highGain =>
      decide (0 ≤ s) && decide (1/10 ≤ d) &&
      decide (-12 ≤ lowGain) && decide (lowGain ≤ 12) &&
      decide (-12 ≤ midGain) && decide (midGain ≤ 12) &&
      decide (-12 ≤ highGain) && decide (highGain ≤ 12)
  | .compressor _ s d threshold r attack release =>
      decide (0 ≤ s) && decide (1/10 ≤ d) &&
      decide (-100 ≤ threshold) && decide (threshold ≤ 0) &&
      decide (1 ≤ r) && decide (r ≤ 20) &&
      decide (0 ≤ attack) && decide (attack ≤ 1) &&
      decide (0 ≤ release) && decide (release ≤ 1)
  | .pitchshift _ s d semitones =>
      decide (0 ≤ s) && decide (1/10 ≤ d) &&
      decide (-24 ≤ semitones) && decide (semitones ≤ 24)
  | .distortion _ s d amount tone =>
      decide (0 ≤ s) && decide (1/10 ≤ d) &&
      decide (0 ≤ amount) && decide (amount ≤ 100) &&
      decide (0 ≤ tone) && decide (tone ≤ 100)
  | .chorus _ s d rate depth dryWet =>
      decide (0 ≤ s) && decide (1/10 ≤ d) &&
      decide (1/2 ≤ rate) && decide (rate ≤ 5) &&
      decide (0 ≤ depth) && decide (depth ≤ 100) &&
      decide (0 ≤ dryWet) && decide (dryWet ≤ 100)

/-- The variant parameter ranges of the documentation's table (spec §3):
no duration bound appears in the table. -/
def specParamsInRange : AudioEffect → Prop
  | .panning _ _ _ intensity => 0 ≤ intensity ∧ intensity ≤ 100
  | .reverb _ _ _ dryWet decay =>
      (0 ≤ dryWet ∧ dryWet ≤ 100) ∧ (1/10 ≤ decay ∧ decay ≤ 10)
  | .delay _ _ _ dryWet delayTime feedback =>
      (0 ≤ dryWet ∧ dryWet ≤ 100) ∧ (1/20 ≤ delayTime ∧ delayTime ≤ 2) ∧
      (0 ≤ feedback ∧ feedback ≤ 80)
  | .eq _ _ _ lowGain midGain highGain =>
      (-12 ≤ lowGain ∧ lowGain ≤ 12) ∧ (-12 ≤ midGain ∧ midGain ≤ 12) ∧
      (-12 ≤ highGain ∧ highGain ≤ 12)
  | .compressor _ _ _ threshold r attack release =>
      (-100 ≤ threshold ∧ threshold ≤ 0) ∧ (1 ≤ r ∧ r ≤ 20) ∧
      (0 ≤ attack ∧ attack ≤ 1) ∧ (0 ≤ release ∧ release ≤ 1)
  | .pitchshift _ _ _ semitones => -24 ≤ semitones ∧ semitones ≤ 24
  | .distortion _ _ _ amount tone =>
      (0 ≤ amount ∧ amount ≤ 100) ∧ (0 ≤ tone ∧ tone ≤ 100)
  | .chorus _ _ _ rate depth dryWet =>
      (1/2 ≤ rate ∧ rate ≤ 5) ∧ (0 ≤ depth ∧ depth ≤ 100) ∧
      (0 ≤ dryWet ∧ dryWet ≤ 100)

/-- Acceptance condition claimed by the documentation: parameters within the
§3 table ranges, `startTime ≥ 0` and `duration > 0`. -/
def claimAccepts (e : AudioEffect) : Prop :=
  0 ≤ e.startTime ∧ 0 < e.duration ∧ specParamsInRange e

/-- Acceptance condition actually enforced by the zod schemas: parameters
within the table ranges, `startTime ≥ 0`, `duration ≥ 0.1`, and additionally
`duration ≤ 10` for the panning variant. -/
def amendedAccepts (e : AudioEffect) : Prop :=
  0 ≤ e.startTime ∧ 1/10 ≤ e.duration ∧
  (e.type = "panning" → e.duration ≤ 10) ∧ specParamsInRange e

/-! ## Signal chain builders (`src/lib/audioProcessing` — unnamed part_008)

`applyAllEffects` (lines 7–48) renders a buffer through an
`OfflineAudioContext`: it returns the input unchanged when the effect list is
empty, otherwise sorts a copy of the list by `startTime`
(`[...effects].sort((a,b) => a.startTime - b.startTime)`, a stable sort,
modelled by a stable insertion sort) and wraps the chain tail in one stage
per *handled* type (`panning`, `reverb`, `delay`, `eq`, `compressor`);
unhandled types leave `prevNode` untouched, and `createCompressorEffect`
(lines 147–160) returns its input node unchanged when the context has no
`createDynamicsCompressor`.  The DSP interior of each stage is external
(Web Audio); it enters the model as the `StageSem` parameter. -/

/-- Ordering relation used by the renderer's sort: ascending `startTime`. -/
def effectLE (a b : AudioEffect) : Prop := a.startTime ≤ b.startTime

instance : DecidableRel effectLE := fun a b =>
  inferInstanceAs (Decidable (a.startTime ≤ b.startTime))

instance : IsTotal AudioEffect effectLE := ⟨fun a b => le_total a.startTime b.startTime⟩

instance : IsTrans AudioEffect effectLE := ⟨fun _ _ _ h h' => le_trans h h'⟩

/-- The sorted copy `[...effects].sort((a, b) => a.startTime - b.startTime)`.
JavaScript's sort is stable; a stable sort with this comparator is uniquely
determined, and is modelled by insertion sort. -/
def sortEffects (effects : List AudioEffect) : List AudioEffect :=
  List.insertionSort effectLE effects

/-- Which descriptors get a processing stage.  The five handled branches of
the `if`/`else if` chain create a node; `createCompressorEffect` returns the
input unchanged (no stage) when the context lacks a dynamics compressor;
every other type falls through with no stage. -/
def createStage (supportsCompressor : Bool) : AudioEffect → Option AudioEffect
  | e@(.panning ..) => some e
  | e@(.reverb ..) => some e
  | e@(.delay ..) => some e
  | e@(.eq ..) => some e
  | e@(.compressor ..) => if supportsCompressor then some e else none
  | _ => none

/-- Stage sequence of the offline rendering chain: sort, then one stage per
handled effect, in sorted order. -/
def offlineStages (supportsCompressor : Bool) (effects : List AudioEffect) :
    List AudioEffect :=
  (sortEffects effects).filterMap (createStage supportsCompressor)

/-- Stage sequence of the realtime playback chain
(`createRealtimeAudioSource`, part_008 lines 165–199): the loop
`for (const effect of effects)` walks the list in insertion order — no sort. -/
def realtimeStages (supportsCompressor : Bool) (effects : List AudioEffect) :
    List AudioEffect :=
  effects.filterMap (createStage supportsCompressor)

/-- The (external) audio transformation performed by one stage's nodes. -/
def StageSem : Type := AudioEffect → SampleBuffer → SampleBuffer

/-- `applyAllEffects(audioBuffer, effects)`: identity on an empty effect
list, otherwise the offline chain applied in stage order. -/
def applyAllEffects (sem : StageSem) (supportsCompressor : Bool)
    (audioBuffer : SampleBuffer) (effects : List AudioEffect) : SampleBuffer :=
  if effects.isEmpty then audioBuffer
  else (offlineStages supportsCompressor effects).foldl (fun b e => sem e b) audioBuffer

/-- Panning-only effect record (`@shared/schema`, part_014 lines 67–72). -/
structure PanningEffect where
  id : String
  startTime : ℚ
  duration : ℚ
  intensity : ℚ
deriving DecidableEq

/-- `applyPanningEffects(audioBuffer, effects)` (part_007 lines 8–55):
identity on an empty list, otherwise one `StereoPanner` carrying the merged
automation of the sorted effects, applied to the buffer.  The panner's DSP
is the external parameter `panSem`. -/
def applyPanningEffects (panSem : List PanningEffect → SampleBuffer → SampleBuffer)
    (audioBuffer : SampleBuffer) (effects : List PanningEffect) : SampleBuffer :=
  if effects.isEmpty then audioBuffer
  else panSem (effects.mergeSort (fun a b => decide (a.startTime ≤ b.startTime))) audioBuffer

/-! ## Automation envelopes (part_008 lines 50–117)

`createPanningEffect` schedules, on the panner's `pan` AudioParam:

  pan.setValueAtTime(0, t0)
  pan.linearRampToValueAtTime(target, t0 + d*0.25)
  pan.setValueAtTime(target, t0 + d*0.75)
  pan.linearRampToValueAtTime(0, t0 + d)

`panAutomation` is the resulting Web Audio parameter timeline (default value
0 before the first event; a linear ramp runs from the previous event; the
value holds after a ramp ends).

`createReverbEffect` and `createDelayEffect` assign their wet/dry gains once
(`gain.value = ...`) and never schedule automation: the gains are constant in
time and the effect's `[startTime, startTime+duration]` window is never read. -/

/-- `panValue = (intensity / 100) * 2 - 1`. -/
def panTarget (intensity : ℚ) : ℚ := intensity / 100 * 2 - 1

/-- Value of the panner's `pan` parameter at time `t`, given the schedule
of `createPanningEffect` for window start `t0`, duration `d`, and ramp
target `target`. -/
def panAutomation (t0 d target : ℚ) (t : ℚ) : ℚ :=
  if t ≤ t0 then 0
  else if t ≤ t0 + d * (1/4) then target * ((t - t0) / (d * (1/4)))
  else if t ≤ t0 + d * (3/4) then target
  else if t ≤ t0 + d then target * ((t0 + d - t) / (d * (1/4)))
  else 0

/-- Reverb wet gain over time: `wetGain.gain.value = dryWet / 100`,
assigned once, never automated. -/
def reverbWetParam (dryWet : ℚ) : ℚ → ℚ := fun _ => dryWet / 100

/-- Reverb dry gain over time: `dryGain.gain.value = 1 - dryWet / 100`. -/
def reverbDryParam (dryWet : ℚ) : ℚ → ℚ := fun _ => 1 - dryWet / 100

/-- Reverb feedback gain: fixed `0.3`. -/
def reverbFeedbackGain : ℚ := 3/10

/-- Delay wet gain over time: `wetGain.gain.value = dryWet / 100`,
assigned once, never automated. -/
def delayWetParam (dryWet : ℚ) : ℚ → ℚ := fun _ => dryWet / 100

/-- Delay dry gain over time: `dryGain.gain.value = 1 - dryWet / 100`. -/
def delayDryParam (dryWet : ℚ) : ℚ → ℚ := fun _ => 1 - dryWet / 100

/-- The claimed baseline automation envelope for an effect's primary
intensity parameter `f` on window `[t0, t0+d]` with full value `target`:
off outside the window, linear 0→target over the first quarter, held at
`target` over the middle half, linear target→0 over the last quarter. -/
def timeGatedRamp (f : ℚ → ℚ) (t0 d target : ℚ) : Prop :=
  (∀ t, t < t0 → f t = 0) ∧
  (∀ t, t0 + d < t → f t = 0) ∧
  (∀ t, t0 ≤ t → t ≤ t0 + d * (1/4) → f t = target * ((t - t0) / (d * (1/4)))) ∧
  (∀ t, t0 + d * (1/4) ≤ t → t ≤ t0 + d * (3/4) → f t = target) ∧
  (∀ t, t0 + d * (3/4) < t → t ≤ t0 + d → f t = target * ((t0 + d - t) / (d * (1/4))))

/-! ## Realtime playback position (C1)

`PlaybackControls` (part_002): `handlePlayPause` records
`playbackStartContextTime = audioContext.currentTime` and
`playbackOffset = currentTime`; the polling interval computes
`currentPosition = audioContext.currentTime - playbackStartContextTime +
playbackOffset`; `handleSeek` while playing re-records both from `now` and
the new time.

`useLivePlayback` (src/client/src/hooks/useLivePlayback.ts): `start` records
`currentTime = startTime` and `startTime = audioContext.currentTime -
startTime`; each animation frame then runs
`elapsed = audioContext.currentTime - state.startTime;
 state.currentTime += elapsed / 1000` — a second counter accumulating a
scaled total on every frame. -/

structure PCState where
  playbackStartContextTime : ℚ
  playbackOffset : ℚ
deriving DecidableEq

/-- `handlePlayPause` (start branch) at clock `now`, starting at `atTime`. -/
def pcStart (now atTime : ℚ) : PCState := ⟨now, atTime⟩

/-- `handleSeek` while playing, at clock `now`, seeking to `newTime`. -/
def pcSeek (now newTime : ℚ) : PCState := ⟨now, newTime⟩

/-- The position polled by the interval callback. -/
def pcPosition (s : PCState) (now : ℚ) : ℚ :=
  now - s.playbackStartContextTime + s.playbackOffset

structure LPState where
  currentTime : ℚ
  startTime : ℚ
deriving DecidableEq

/-- `useLivePlayback.start(startTime)` at clock `now`. -/
def lpStart (now atTime : ℚ) : LPState := ⟨atTime, now - atTime⟩

/-- One `updateTime` animation frame at clock `now`. -/
def lpTick (s : LPState) (now : ℚ) : LPState :=
  { s with currentTime := s.currentTime + (now - s.startTime) / 1000 }

/-! ## Track mixer (`mixAudioTracks`, part_008 appendix lines 354–402)

An empty track list yields `audioContext.createBuffer(2, ctx.sampleRate,
ctx.sampleRate)` — one second of stereo silence at the context rate.
Otherwise an `OfflineAudioContext(2, Math.ceil(maxDuration * sampleRate),
sampleRate)` is created with `sampleRate = tracks[0].buffer.sampleRate` and
`maxDuration = Math.max(...tracks.map(t => t.buffer.duration))` (max over
*all* tracks), and each track not skipped by
`if (track.isMuted || (hasSolo && !track.isSolo)) continue` plays
`source → gain(volume/100) → stereoPanner(pan/100) → destination`, the
destination summing contributions per sample.  The panner's left/right gain
law is external (Web Audio); it enters as the `panLaw` parameter mapping the
pan position in `[-1, 1]` to the pair of channel gains.  Sources are
modelled at the context sample rate (the theorems below hypothesise equal
rates). -/

structure MixTrack where
  samples : List ℚ
  rate : ℕ
  volume : ℚ
  pan : ℚ
  isMuted : Bool
  isSolo : Bool
deriving DecidableEq

/-- `AudioBuffer.duration = length / sampleRate`. -/
def trackDuration (t : MixTrack) : ℚ := (t.samples.length : ℚ) / t.rate

/-- Add one playing source's output into an accumulated channel:
cell `i` gains `gain * vol * samples[i]` (0 past the source's end). -/
def addScaled (gain vol : ℚ) (samples acc : List ℚ) : List ℚ :=
  match acc with
  | [] => []
  | x :: acc' => (x + gain * vol * samples.headD 0) :: addScaled gain vol (samples.drop 1) acc'

/-- One non-skipped track's contribution to the running stereo mix. -/
def addTrackToMix (panLaw : ℚ → ℚ × ℚ) (t : MixTrack) (acc : List ℚ × List ℚ) :
    List ℚ × List ℚ :=
  ((addScaled (panLaw (t.pan / 100)).1 (t.volume / 100) t.samples acc.1),
   (addScaled (panLaw (t.pan / 100)).2 (t.volume / 100) t.samples acc.2))

/-- The mix-inclusion test: the complement of the skip condition
`track.isMuted || (hasSolo && !track.isSolo)`. -/
def includedInMix (hasSolo : Bool) (t : MixTrack) : Bool :=
  !(t.isMuted || (hasSolo && !t.isSolo))

/-- `mixAudioTracks(audioContext, tracks)`. -/
def mixAudioTracks (panLaw : ℚ → ℚ × ℚ) (ctxSampleRate : ℕ)
    (tracks : List MixTrack) : SampleBuffer :=
  match tracks with
  | [] =>
      ⟨[List.replicate ctxSampleRate 0, List.replicate ctxSampleRate 0], ctxSampleRate⟩
  | t0 :: rest =>
      let hasSolo := (t0 :: rest).any (·.isSolo)
      let sampleRate := t0.rate
      let maxDuration := ((t0 :: rest).map trackDuration).foldr max 0
      let outLen := (jsCeil (maxDuration * sampleRate)).toNat
      let mixed := (t0 :: rest).foldl
        (fun acc track =>
          if track.isMuted || (hasSolo && !track.isSolo) then acc
          else addTrackToMix panLaw track acc)
        (List.replicate outLen 0, List.replicate outLen 0)
      ⟨[mixed.1, mixed.2], sampleRate⟩

/-! ## WAV encoder (`exportToWAV`, part_007 lines 102–167 and `resampleBuffer`
lines 218–237)

`resampleBuffer` computes a ratio, a rounded new length and an
`OfflineAudioContext`, but never awaits the rendering: its final statement —
under the comment "For now, return original buffer (caller should handle
async)" — returns the *input* buffer.

Byte model: `DataView` writes over an `ArrayBuffer`, little-endian;
`setUint16/setUint32` store `v % 2^16 / v % 2^32`; `setInt16/setInt32` first
truncate the double toward zero then store the low bytes two's-complement;
for 24-bit output `val & 0xFF` is `trunc(val) emod 256` and `val >> 8` is
the arithmetic shift `fdiv 256` of the truncated value. -/

def writeString (s : String) : List ℕ := s.data.map Char.toNat

def u16le (v : ℕ) : List ℕ := [v % 256, v / 256 % 256]

def u32le (v : ℕ) : List ℕ :=
  [v % 256, v / 256 % 256, v / 65536 % 256, v / 16777216 % 256]

/-- The 16-bit PCM value written by the WAV sample loop:
`sample < 0 ? sample * 0x8000 : sample * 0x7FFF` after clamping to [-1, 1],
truncated by the `setInt16` store. -/
def wav16Value (s : ℚ) : ℤ :=
  let sample := max (-1) (min 1 s)
  jsTrunc (if sample < 0 then sample * 0x8000 else sample * 0x7FFF)

/-- The 24-bit PCM value (`sample * 0x800000` / `sample * 0x7FFFFF`). -/
def wav24Value (s : ℚ) : ℤ :=
  let sample := max (-1) (min 1 s)
  jsTrunc (if sample < 0 then sample * 0x800000 else sample * 0x7FFFFF)

/-- The 32-bit PCM value (`sample * 0x80000000` / `sample * 0x7FFFFFFF`). -/
def wav32Value (s : ℚ) : ℤ :=
  let sample := max (-1) (min 1 s)
  jsTrunc (if sample < 0 then sample * 0x80000000 else sample * 0x7FFFFFFF)

/-- Bytes emitted for one sample at the given bit depth: the `setInt16`
store, the three `setInt8(val & 0xFF / (val >> 8) & 0xFF / (val >> 16) &
0xFF)` stores, or the `setInt32` store; no branch writes for any other
depth. -/
def sampleBytes (bitDepth : ℕ) (s : ℚ) : List ℕ :=
  if bitDepth = 16 then
    let m := (wav16Value s % 65536).toNat
    [m % 256, m / 256 % 256]
  else if bitDepth = 24 then
    let v := wav24Value s
    [(v % 256).toNat, (v.fdiv 256 % 256).toNat, (v.fdiv 65536 % 256).toNat]
  else if bitDepth = 32 then
    let m := (wav32Value s % 4294967296).toNat
    [m % 256, m / 256 % 256, m / 65536 % 256, m / 16777216 % 256]
  else []

/-- The interleaved PCM payload: frames outermost, channels within a frame. -/
def pcmData (bitDepth : ℕ) (channels : List (List ℚ)) (frames : ℕ) : List ℕ :=
  (List.range frames).flatMap fun i =>
    channels.flatMap fun ch => sampleBytes bitDepth (ch.getD i 0)

/-- The 44-byte canonical RIFF/WAVE header, fields as written by the
`view.set*` sequence of `exportToWAV`. -/
def wavHeader (numberOfChannels frames sampleRate bitDepth : ℕ) : List ℕ :=
  let bytesPerSample := bitDepth / 8
  let blockAlign := numberOfChannels * bytesPerSample
  let byteRate := sampleRate * blockAlign
  let dataSize := frames * blockAlign
  let bufferSize := 44 + dataSize
  writeString "RIFF" ++ u32le (bufferSize - 8) ++ writeString "WAVE" ++
  writeString "fmt " ++ u32le 16 ++ u16le 1 ++ u16le numberOfChannels ++
  u32le sampleRate ++ u32le byteRate ++ u16le blockAlign ++ u16le bitDepth ++
  writeString "data" ++ u32le dataSize

/-- `resampleBuffer(audioBuffer, targetSampleRate)`: computes
`ratio`, `newLength = Math.round(length / ratio)` and an offline context,
then returns the original buffer ("For now, return original buffer"). -/
def resampleBuffer (audioBuffer : SampleBuffer) (targetSampleRate : ℕ) : SampleBuffer :=
  let _ratio : ℚ := (audioBuffer.sampleRate : ℚ) / targetSampleRate
  let _newLength : ℕ := (jsRound ((audioBuffer.frameCount : ℚ) / _ratio)).toNat
  audioBuffer

/-- `exportToWAV(audioBuffer, sampleRate, bitDepth)`. -/
def exportToWAV (audioBuffer : SampleBuffer) (sampleRate bitDepth : ℕ) : List ℕ :=
  let buffer := if audioBuffer.sampleRate = sampleRate then audioBuffer
                else resampleBuffer audioBuffer sampleRate
  wavHeader buffer.channels.length buffer.frameCount sampleRate bitDepth ++
  pcmData bitDepth buffer.channels buffer.frameCount

/-- Little-endian reader for header checks, `bytes[off] + 256*bytes[off+1]`. -/
def readU16 (bytes : List ℕ) (off : ℕ) : ℕ :=
  bytes.getD off 0 + 256 * bytes.getD (off + 1) 0

def readU32 (bytes : List ℕ) (off : ℕ) : ℕ :=
  bytes.getD off 0 + 256 * bytes.getD (off + 1) 0 +
  65536 * bytes.getD (off + 2) 0 + 16777216 * bytes.getD (off + 3) 0

/-- Little-endian two's-complement byte sequence of an integer, `n` bytes:
byte `k` of `v mod 2^(8n)`. -/
def leBytes (n : ℕ) (v : ℤ) : List ℕ :=
  (List.range n).map fun k => (v % (2 ^ (8 * n))).toNat / 2 ^ (8 * k) % 256

/-! ## MP3 encoder (`exportToMP3`, part_007 lines 172–213)

The lamejs encoder is external: it enters as an `Mp3Encoder` record over an
abstract state type.  `exportToMP3` converts every channel to 16-bit PCM
with the same clamp-and-scale rule as the WAV writer, then loops
`for (i = 0; i < channels[0].length; i += 1152)` feeding
`subarray(i, i + 1152)` of the left and right channels (the single channel
twice when mono), collecting each non-empty returned chunk, and finally
appends a non-empty `flush()` result. -/

/-- `samples[j] = s < 0 ? s * 0x8000 : s * 0x7FFF` after clamping, stored
into an `Int16Array` (truncation). -/
def mp3SampleToInt16 (s0 : ℚ) : ℤ :=
  let s := max (-1) (min 1 s0)
  jsTrunc (if s < 0 then s * 0x8000 else s * 0x7FFF)

structure Mp3Encoder (σ : Type) where
  encodeBuffer : σ → List ℤ → List ℤ → σ × List ℕ
  flush : σ → List ℕ

/-- The sequence of sample blocks taken by the encoding loop:
`subarray(i, i + 1152)` for `i = 0, 1152, 2304, …` while `i` is short of
the channel length. -/
def mp3Blocks (samples : List ℤ) : List (List ℤ) :=
  match samples with
  | [] => []
  | s :: rest => ((s :: rest).take 1152) :: mp3Blocks ((s :: rest).drop 1152)
termination_by samples.length
decreasing_by simp; omega

/-- The encoding loop followed by the flush, collecting non-empty chunks. -/
def mp3Loop {σ : Type} (enc : Mp3Encoder σ) (st : σ) (left right : List ℤ) : List ℕ :=
  match left with
  | [] =>
      let fin := enc.flush st
      if fin.length > 0 then fin else []
  | l :: ls =>
      let step := enc.encodeBuffer st ((l :: ls).take 1152) (right.take 1152)
      (if step.2.length > 0 then step.2 else []) ++
        mp3Loop enc step.1 ((l :: ls).drop 1152) (right.drop 1152)
termination_by left.length
decreasing_by simp; omega

/-- `exportToMP3(audioBuffer, bitrate)` given an encoder implementation and
its initial state (the bitrate is consumed by the encoder's construction,
which is part of the external library). -/
def exportToMP3 {σ : Type} (enc : Mp3Encoder σ) (st : σ)
    (audioBuffer : SampleBuffer) : List ℕ :=
  let channels := audioBuffer.channels.map (fun ch => ch.map mp3SampleToInt16)
  let left := channels.getD 0 []
  let right := if audioBuffer.channels.length > 1 then channels.getD 1 [] else left
  mp3Loop enc st left right

/-- Reference form of the loop: encode the zipped block pairs in order, then
flush — the shape the documentation describes. -/
def encodeBlockPairs {σ : Type} (enc : Mp3Encoder σ) (st : σ) :
    List (List ℤ × List ℤ) → List ℕ
  | [] => enc.flush st
  | p :: ps =>
      let step := enc.encodeBuffer st p.1 p.2
      step.2 ++ encodeBlockPairs enc step.1 ps

/-! ## Statement-side helper definitions -/

/-- `tracks.some((t) => t.isSolo)`. -/
def mixHasSolo (ts : List MixTrack) : Bool := ts.any (·.isSolo)

/-- The offline context length `Math.ceil(maxDuration * sampleRate)`. -/
def mixOutLen (ts : List MixTrack) (r : ℕ) : ℕ :=
  (jsCeil ((ts.map trackDuration).foldr max 0 * r)).toNat

/-- Left-channel contribution of one track at frame `i`. -/
def mixTermL (law : ℚ → ℚ × ℚ) (i : ℕ) (t : MixTrack) : ℚ :=
  (law (t.pan / 100)).1 * (t.volume / 100) * t.samples.getD i 0

/-- Right-channel contribution of one track at frame `i`. -/
def mixTermR (law : ℚ → ℚ × ℚ) (i : ℕ) (t : MixTrack) : ℚ :=
  (law (t.pan / 100)).2 * (t.volume / 100) * t.samples.getD i 0

/-- The claimed PCM value at each depth: clamp, then scale asymmetrically,
then truncate. -/
def pcmIntValue (bd : ℕ) (s : ℚ) : ℤ :=
  if bd = 16 then wav16Value s
  else if bd = 24 then wav24Value s
  else if bd = 32 then wav32Value s
  else 0

/-! ## C9 — descriptor validation -/

/-- C9 (counterexample): the claim accepts any positive duration, but the
schemas require `duration ≥ 0.1` for every variant and additionally
`duration ≤ 10` for panning.  A panning descriptor with duration `0.05`
and one with duration `11`, both with every table parameter in range and
`startTime = 0`, are inside the claim's acceptance condition yet rejected by
`audioEffectSchema`. -/
theorem validateEffect_rejects_short_and_long_panning :
    claimAccepts (.panning "p" 0 (1/20) 50) ∧
    validateEffect (.panning "p" 0 (1/20) 50) = false ∧
    claimAccepts (.panning "q" 0 11 50) ∧
    validateEffect (.panning "q" 0 11 50) = false := by
  refine ⟨⟨?_, ?_, ?_⟩, ?_, ⟨?_, ?_, ?_⟩, ?_⟩ <;>
    norm_num [validateEffect, claimAccepts, specParamsInRange,
      AudioEffect.startTime, AudioEffect.duration]

/-- C9 (amended): `audioEffectSchema` accepts a descriptor exactly when its
variant parameters are within the documented table ranges, `startTime ≥ 0`,
`duration ≥ 0.1`, and — for the panning variant only — `duration ≤ 10`;
acceptance is checked at construction only. -/
theorem validateEffect_iff_amended (e : AudioEffect) :
    validateEffect e = true ↔ amendedAccepts e := by
  cases e <;>
    simp [validateEffect, amendedAccepts, specParamsInRange, AudioEffect.startTime,
      AudioEffect.duration, AudioEffect.type, Bool.and_eq_true,
      decide_eq_true_eq] <;>
    tauto

/-! ## Chain-structure lemmas -/

lemma createStage_none_or_self (sc : Bool) (e : AudioEffect) :
    createStage sc e = none ∨ createStage sc e = some e := by
  cases e <;> cases sc <;> simp [createStage]

lemma filterMap_stage_sublist (g : AudioEffect → Option AudioEffect)
    (hg : ∀ a, g a = none ∨ g a = some a) (l : List AudioEffect) :
    List.Sublist (l.filterMap g) l := by
  induction l with
  | nil => simp
  | cons a l ih =>
      rcases hg a with h | h
      · simpa [List.filterMap_cons, h] using ih.cons a
      · simpa [List.filterMap_cons, h] using ih.cons₂ a

lemma filterMap_orderedInsert_none {g : AudioEffect → Option AudioEffect}
    {x : AudioEffect} (hx : g x = none) (s : List AudioEffect) :
    (List.orderedInsert effectLE x s).filterMap g = s.filterMap g := by
  induction s with
  | nil => simp [List.orderedInsert, List.filterMap_cons, hx]
  | cons b t ih =>
      by_cases h : effectLE x b
      · simp [List.orderedInsert, h, List.filterMap_cons, hx]
      · simp only [List.orderedInsert, if_neg h, List.filterMap_cons]
        rw [ih]

lemma filterMap_orderedInsert_some {g : AudioEffect → Option AudioEffect}
    (hg : ∀ a, g a = none ∨ g a = some a) {x : AudioEffect} (hx : g x = some x)
    {s : List AudioEffect} (hs : List.Sorted effectLE s) :
    (List.orderedInsert effectLE x s).filterMap g =
      List.orderedInsert effectLE x (s.filterMap g) := by
  induction s with
  | nil => simp [List.orderedInsert, List.filterMap_cons, hx]
  | cons b t ih =>
      have hbt : ∀ c ∈ t, effectLE b c := List.rel_of_sorted_cons hs
      have ht : List.Sorted effectLE t := hs.of_cons
      by_cases hxb : effectLE x b
      · have hins : List.orderedInsert effectLE x (b :: t) = x :: b :: t := by
          simp [List.orderedInsert, hxb]
        rcases hg b with hb | hb
        · have hfront : List.orderedInsert effectLE x (t.filterMap g) =
              x :: t.filterMap g := by
            cases hc : t.filterMap g with
            | nil => simp [List.orderedInsert]
            | cons c u =>
                have hcmem : c ∈ t :=
                  (filterMap_stage_sublist g hg t).mem
                    (by rw [hc]; exact List.mem_cons_self c u)
                have hxc : effectLE x c := le_trans hxb (hbt c hcmem)
                simp [List.orderedInsert, hxc]
          simp only [hins, List.filterMap_cons, hx, hb]
          exact hfront.symm
        · simp only [hins, List.filterMap_cons, hx, hb]
          simp [List.orderedInsert, hxb]
      · have hins : List.orderedInsert effectLE x (b :: t) =
            b :: List.orderedInsert effectLE x t := by
          simp [List.orderedInsert, hxb]
        rcases hg b with hb | hb
        · simp only [hins, List.filterMap_cons, hb]
          exact ih ht
        · simp only [hins, List.filterMap_cons, hb]
          rw [ih ht]
          simp [List.orderedInsert, hxb]

lemma filterMap_insertionSort (g : AudioEffect → Option AudioEffect)
    (hg : ∀ a, g a = none ∨ g a = some a) (l : List AudioEffect) :
    (List.insertionSort effectLE l).filterMap g =
      List.insertionSort effectLE (l.filterMap g) := by
  induction l with
  | nil => simp
  | cons a l ih =>
      rcases hg a with ha | ha
      · rw [List.insertionSort, filterMap_orderedInsert_none ha, ih,
          List.filterMap_cons, ha]
      · rw [List.insertionSort,
          filterMap_orderedInsert_some hg ha (List.sorted_insertionSort effectLE l),
          ih, List.filterMap_cons, ha, List.insertionSort]

lemma createStage_eq_none_of_type {e : AudioEffect}
    (h : e.type ∈ (["pitchshift", "distortion", "chorus"] : List String))
    (sc : Bool) : createStage sc e = none := by
  cases e <;> simp_all [AudioEffect.type, createStage]

lemma offlineStages_middle_none (sc : Bool) (l₁ l₂ : List AudioEffect)
    {e : AudioEffect} (he : createStage sc e = none) :
    offlineStages sc (l₁ ++ e :: l₂) = offlineStages sc (l₁ ++ l₂) := by
  rw [offlineStages, offlineStages, sortEffects, sortEffects,
    filterMap_insertionSort _ (createStage_none_or_self sc),
    filterMap_insertionSort _ (createStage_none_or_self sc),
    List.filterMap_append, List.filterMap_append, List.filterMap_cons, he]

/-! ## C3 — chain ordering -/

/-- C3 (counterexample): for panning effects A (startTime 5) and B
(startTime 1) inserted in order [A, B], the offline chain applies B before
A, but the realtime chain of `createRealtimeAudioSource` applies its stages
in insertion order — A's stage first — so the claim's ordering law fails for
the realtime playback chain. -/
theorem realtimeStages_insertion_order :
    offlineStages true [.panning "A" 5 1 100, .panning "B" 1 1 100] =
      [.panning "B" 1 1 100, .panning "A" 5 1 100] ∧
    realtimeStages true [.panning "A" 5 1 100, .panning "B" 1 1 100] =
      [.panning "A" 5 1 100, .panning "B" 1 1 100] ∧
    ([.panning "A" 5 1 100, .panning "B" 1 1 100] : List AudioEffect) ≠
      [.panning "B" 1 1 100, .panning "A" 5 1 100] := by
  refine ⟨?_, ?_, ?_⟩ <;> decide

/-- C3 (amended): the offline rendering chain applies stages in ascending
`startTime` order; the realtime playback chain applies the same stages (a
permutation of the offline ones) but in insertion order — it is a sublist of
the effect list as given, with no re-sorting. -/
theorem chain_order_amended (sc : Bool) (l : List AudioEffect) :
    List.Sorted effectLE (offlineStages sc l) ∧
    List.Sublist (realtimeStages sc l) l ∧
    (offlineStages sc l).Perm (realtimeStages sc l) := by
  refine ⟨?_, ?_, ?_⟩
  · exact List.Pairwise.sublist
      (filterMap_stage_sublist _ (createStage_none_or_self sc) _)
      (List.sorted_insertionSort effectLE l)
  · exact filterMap_stage_sublist _ (createStage_none_or_self sc) l
  · rw [offlineStages, sortEffects,
      filterMap_insertionSort _ (createStage_none_or_self sc)]
    exact List.perm_insertionSort effectLE _

/-! ## C4 — identity law -/

/-- C4 (confirmed): rendering with an empty effects list returns the input
buffer itself — channels, channel count, length and sample rate unchanged —
in both `applyAllEffects` and `applyPanningEffects`, for every stage
semantics. -/
theorem render_empty_identity (sem : StageSem) (sc : Bool)
    (panSem : List PanningEffect → SampleBuffer → SampleBuffer)
    (buffer : SampleBuffer) :
    applyAllEffects sem sc buffer [] = buffer ∧
    applyPanningEffects panSem buffer [] = buffer := by
  constructor <;> simp [applyAllEffects, applyPanningEffects]

/-! ## C10 — unhandled effect types are identity -/

/-- C10 (confirmed): the chain builders create stages only for the types
panning, reverb, delay, eq and compressor; a pitchshift, distortion or
chorus descriptor contributes no stage, so rendering with it present equals
rendering with it removed (offline and realtime); and without dynamics-
compressor support the compressor branch returns the input node unchanged
(no stage). -/
theorem unhandled_effects_identity :
    (∀ (sc : Bool) (e : AudioEffect), createStage sc e ≠ none →
        e.type ∈ (["panning", "reverb", "delay", "eq", "compressor"] : List String)) ∧
    (∀ (sem : StageSem) (sc : Bool) (buffer : SampleBuffer)
        (l₁ l₂ : List AudioEffect) (e : AudioEffect),
        e.type ∈ (["pitchshift", "distortion", "chorus"] : List String) →
        applyAllEffects sem sc buffer (l₁ ++ e :: l₂) =
          applyAllEffects sem sc buffer (l₁ ++ l₂) ∧
        realtimeStages sc (l₁ ++ e :: l₂) = realtimeStages sc (l₁ ++ l₂)) ∧
    (∀ e : AudioEffect, e.type = "compressor" → createStage false e = none) := by
  refine ⟨?_, ?_, ?_⟩
  · intro sc e h
    cases e <;> simp_all [createStage, AudioEffect.type]
  · intro sem sc buffer l₁ l₂ e he
    have hnone := createStage_eq_none_of_type he sc
    constructor
    · by_cases hemp : l₁ ++ l₂ = []
      · rcases List.append_eq_nil.mp hemp with ⟨h1, h2⟩
        subst h1; subst h2
        simp [applyAllEffects, offlineStages, sortEffects, List.insertionSort,
          List.orderedInsert, List.filterMap_cons, hnone]
      · rw [applyAllEffects, applyAllEffects,
          if_neg (by simp [List.isEmpty_iff]), if_neg (by simp [List.isEmpty_iff, hemp]),
          offlineStages_middle_none sc l₁ l₂ hnone]
    · rw [realtimeStages, realtimeStages, List.filterMap_append,
        List.filterMap_append, List.filterMap_cons, hnone]
  · intro e h
    cases e <;> simp_all [AudioEffect.type, createStage]

/-- C10 (witness): a concrete pitchshift descriptor between two panning
descriptors changes nothing, and an unsupported-context compressor creates
no stage. -/
theorem unhandled_effects_identity_witness :
    applyAllEffects (fun _ b => ⟨b.channels, b.sampleRate + 1⟩) true ⟨[[1]], 44100⟩
        ([.panning "A" 5 1 100] ++ (.pitchshift "x" 0 1 12) :: [.panning "B" 1 1 100]) =
      applyAllEffects (fun _ b => ⟨b.channels, b.sampleRate + 1⟩) true ⟨[[1]], 44100⟩
        ([.panning "A" 5 1 100] ++ [.panning "B" 1 1 100]) ∧
    createStage false (.compressor "c" 0 1 (-20) 4 0 1) = none :=
  ⟨(unhandled_effects_identity.2.1 _ true _ _ _ _ (by decide)).1,
   unhandled_effects_identity.2.2 _ rfl⟩

/-! ## C2 — time-gated ramp envelope -/

/-- C2 (counterexample): the claim asserts the gated 25%-ramp envelope for
reverb's wet mix, but `createReverbEffect` sets `wetGain.gain.value =
dryWet / 100` once and never schedules automation: for a reverb with window
`[1, 5]` and `dryWet = 50` the wet gain at `t = 0` — outside the window —
is `1/2`, not the off value `0`, so the stage is not pass-through outside
its window and the claimed envelope fails. -/
theorem reverb_stage_not_time_gated :
    ¬ timeGatedRamp (reverbWetParam 50) 1 4 (1/2) := by
  intro h
  have h0 := h.1 0 (by norm_num)
  rw [reverbWetParam] at h0
  norm_num at h0

/-- C2 (amended): the panning stage's pan parameter does follow the gated
envelope — off outside `[t0, t0+d]`, linear 0→target over the first quarter
of the window, held at `target = intensity/100*2-1` over the middle half,
linear target→0 over the last quarter; but the reverb and delay stages are
not time-gated at all: their wet and dry gains are the constants
`dryWet/100` and `1 - dryWet/100` for the entire signal, and the effect's
window is ignored. -/
theorem effect_envelope_amended (t0 d intensity dryWet : ℚ) (hd : 0 < d) :
    timeGatedRamp (panAutomation t0 d (panTarget intensity)) t0 d (panTarget intensity) ∧
    (∀ t, reverbWetParam dryWet t = dryWet / 100) ∧
    (∀ t, delayWetParam dryWet t = dryWet / 100) ∧
    (∀ t, reverbDryParam dryWet t = 1 - dryWet / 100) ∧
    (∀ t, delayDryParam dryWet t = 1 - dryWet / 100) := by
  refine ⟨⟨?_, ?_, ?_, ?_, ?_⟩, fun _ => rfl, fun _ => rfl, fun _ => rfl, fun _ => rfl⟩
  · intro t ht
    rw [panAutomation, if_pos (le_of_lt ht)]
  · intro t ht
    have h1 : ¬ t ≤ t0 := by linarith
    have h2 : ¬ t ≤ t0 + d * (1/4) := by linarith
    have h3 : ¬ t ≤ t0 + d * (3/4) := by linarith
    have h4 : ¬ t ≤ t0 + d := by linarith
    rw [panAutomation, if_neg h1, if_neg h2, if_neg h3, if_neg h4]
  · intro t h1 h2
    rcases eq_or_lt_of_le h1 with heq | hlt
    · rw [panAutomation, if_pos (le_of_eq heq.symm), ← heq]
      simp
    · have h1' : ¬ t ≤ t0 := not_le.mpr hlt
      rw [panAutomation, if_neg h1', if_pos h2]
  · intro t h1 h2
    have ht0 : ¬ t ≤ t0 := by
      have : t0 < t0 + d * (1/4) := by linarith
      exact not_le.mpr (lt_of_lt_of_le this h1)
    by_cases hb : t ≤ t0 + d * (1/4)
    · have hteq : t = t0 + d * (1/4) := le_antisymm hb h1
      have hd4 : d * (1/4) ≠ 0 := by positivity
      rw [panAutomation, if_neg ht0, if_pos hb, hteq, add_sub_cancel_left,
        div_self hd4, mul_one]
    · rw [panAutomation, if_neg ht0, if_neg hb, if_pos h2]
  · intro t h1 h2
    have ht0 : ¬ t ≤ t0 := by linarith
    have hq : ¬ t ≤ t0 + d * (1/4) := by linarith
    have h3 : ¬ t ≤ t0 + d * (3/4) := not_le.mpr h1
    rw [panAutomation, if_neg ht0, if_neg hq, if_neg h3, if_pos h2]

/-- C2 (witness): the amended envelope at a concrete panning effect
(window `[0, 4]`, intensity 100) and concrete wet mixes. -/
theorem effect_envelope_amended_witness :
    timeGatedRamp (panAutomation 0 4 (panTarget 100)) 0 4 (panTarget 100) ∧
    (∀ t, reverbWetParam 30 t = 30 / 100) ∧
    (∀ t, delayWetParam 30 t = 30 / 100) ∧
    (∀ t, reverbDryParam 30 t = 1 - 30 / 100) ∧
    (∀ t, delayDryParam 30 t = 1 - 30 / 100) :=
  effect_envelope_amended 0 4 100 30 (by norm_num)

/-! ## C1 — scheduler position formula -/

/-- C1: `PlaybackControls` realises the claimed single-formula position —
after `start(atTime = 3)` at clock 10, the position at clock 12 is exactly
5, and after `seek(7)` at clock 12 the position at clock 13 is exactly 8,
with `position = now - playbackStartContextTime + playbackOffset` on every
query; but `useLivePlayback` keeps a second, independently accumulating
counter: one `updateTime` frame after the same start reports
`3 + 5/1000` instead of 5, and a second frame at the same clock accumulates
further to `3 + 10/1000`. -/
theorem playback_position_formula_check :
    pcPosition (pcStart 10 3) 12 = 5 ∧
    pcPosition (pcSeek 12 7) 13 = 8 ∧
    (∀ s now, pcPosition s now = now - s.playbackStartContextTime + s.playbackOffset) ∧
    (lpTick (lpStart 10 3) 12).currentTime = 3 + 5 / 1000 ∧
    (lpTick (lpTick (lpStart 10 3) 12) 12).currentTime = 3 + 10 / 1000 ∧
    (3 : ℚ) + 5 / 1000 ≠ 5 := by
  refine ⟨by norm_num [pcPosition, pcStart], by norm_num [pcPosition, pcSeek],
    fun s now => rfl, by norm_num [lpTick, lpStart],
    by norm_num [lpTick, lpStart], by norm_num⟩

/-! ## Mixer lemmas -/

lemma getD_replicate_zero (n i : ℕ) : (List.replicate n (0 : ℚ)).getD i 0 = 0 := by
  induction n generalizing i with
  | zero => rfl
  | succ n ih =>
      cases i with
      | zero => rfl
      | succ i => simp [List.replicate, ih i]

lemma addScaled_length (g v : ℚ) (s a : List ℚ) :
    (addScaled g v s a).length = a.length := by
  induction a generalizing s with
  | nil => rfl
  | cons x a ih => simp [addScaled, ih]

lemma addScaled_getD (g v : ℚ) (s a : List ℚ) (i : ℕ) (hi : i < a.length) :
    (addScaled g v s a).getD i 0 = a.getD i 0 + g * v * s.getD i 0 := by
  induction a generalizing s i with
  | nil => simp at hi
  | cons x a ih =>
      cases i with
      | zero =>
          have hh : s.headD 0 = s.getD 0 0 := by cases s <;> rfl
          simp only [addScaled, List.getD_cons_zero]
          rw [hh]
      | succ i =>
          have hd : (s.drop 1).getD i 0 = s.getD (i + 1) 0 := by cases s <;> simp
          simp only [addScaled, List.getD_cons_succ]
          rw [ih _ _ (by simpa using hi), hd]

lemma mixFold_length (law : ℚ → ℚ × ℚ) (hasSolo : Bool) (ts : List MixTrack)
    (acc : List ℚ × List ℚ) :
    (ts.foldl (fun acc track =>
        if track.isMuted || (hasSolo && !track.isSolo) then acc
        else addTrackToMix law track acc) acc).1.length = acc.1.length ∧
    (ts.foldl (fun acc track =>
        if track.isMuted || (hasSolo && !track.isSolo) then acc
        else addTrackToMix law track acc) acc).2.length = acc.2.length := by
  induction ts generalizing acc with
  | nil => exact ⟨rfl, rfl⟩
  | cons t ts ih =>
      simp only [List.foldl_cons]
      by_cases h : (t.isMuted || (hasSolo && !t.isSolo)) = true
      · rw [if_pos h]; exact ih acc
      · rw [if_neg h]
        refine ⟨((ih _).1).trans ?_, ((ih _).2).trans ?_⟩ <;>
          simp [addTrackToMix, addScaled_length]

lemma mixFold_getD (law : ℚ → ℚ × ℚ) (hasSolo : Bool) (ts : List MixTrack)
    (acc : List ℚ × List ℚ) (i : ℕ) (hiL : i < acc.1.length) (hiR : i < acc.2.length) :
    (ts.foldl (fun acc track =>
        if track.isMuted || (hasSolo && !track.isSolo) then acc
        else addTrackToMix law track acc) acc).1.getD i 0 =
      acc.1.getD i 0 + ((ts.filter (includedInMix hasSolo)).map (mixTermL law i)).sum ∧
    (ts.foldl (fun acc track =>
        if track.isMuted || (hasSolo && !track.isSolo) then acc
        else addTrackToMix law track acc) acc).2.getD i 0 =
      acc.2.getD i 0 + ((ts.filter (includedInMix hasSolo)).map (mixTermR law i)).sum := by
  induction ts generalizing acc with
  | nil => simp
  | cons t ts ih =>
      simp only [List.foldl_cons, List.filter_cons]
      by_cases h : (t.isMuted || (hasSolo && !t.isSolo)) = true
      · have hinc : includedInMix hasSolo t = false := by
          simp [includedInMix, h]
        rw [if_pos h, hinc]
        simpa using ih acc hiL hiR
      · have hinc : includedInMix hasSolo t = true := by
          simp only [includedInMix, h]; rfl
        have hL : i < (addTrackToMix law t acc).1.length := by
          simpa [addTrackToMix, addScaled_length] using hiL
        have hR : i < (addTrackToMix law t acc).2.length := by
          simpa [addTrackToMix, addScaled_length] using hiR
        rw [if_neg h, hinc]
        have h1 := (ih (addTrackToMix law t acc) hL hR).1
        have h2 := (ih (addTrackToMix law t acc) hL hR).2
        constructor
        · rw [h1]
          simp only [addTrackToMix]
          rw [addScaled_getD _ _ _ _ _ hiL]
          simp [mixTermL, List.sum_cons, add_assoc]
        · rw [h2]
          simp only [addTrackToMix]
          rw [addScaled_getD _ _ _ _ _ hiR]
          simp [mixTermR, List.sum_cons, add_assoc]

lemma le_foldr_max (l : List ℚ) (x : ℚ) (hx : x ∈ l) : x ≤ l.foldr max 0 := by
  induction l with
  | nil => simp at hx
  | cons a l ih =>
      rcases List.mem_cons.mp hx with h | h
      · subst h; exact le_max_left _ _
      · exact (ih h).trans (le_max_right _ _)

lemma foldr_max_nonneg (l : List ℚ) : 0 ≤ l.foldr max 0 := by
  induction l with
  | nil => simp
  | cons a l ih => exact ih.trans (le_max_right _ _)

lemma track_samples_le_mixOutLen {ts : List MixTrack} {r : ℕ} (hr : 0 < r)
    (hrate : ∀ t ∈ ts, t.rate = r) {t : MixTrack} (ht : t ∈ ts) :
    t.samples.length ≤ mixOutLen ts r := by
  have hdur : trackDuration t ∈ ts.map trackDuration := List.mem_map_of_mem _ ht
  have hle : trackDuration t ≤ (ts.map trackDuration).foldr max 0 :=
    le_foldr_max _ _ hdur
  have hrq : (0 : ℚ) < r := by exact_mod_cast hr
  have hlen : (t.samples.length : ℚ) ≤ (ts.map trackDuration).foldr max 0 * r := by
    have : (t.samples.length : ℚ) / r ≤ (ts.map trackDuration).foldr max 0 := by
      rw [trackDuration, hrate t ht] at hle
      exact hle
    calc (t.samples.length : ℚ) = (t.samples.length : ℚ) / r * r := by
            field_simp
      _ ≤ (ts.map trackDuration).foldr max 0 * r := by
            exact mul_le_mul_of_nonneg_right this (le_of_lt hrq)
  have hceil : (t.samples.length : ℤ) ≤ jsCeil ((ts.map trackDuration).foldr max 0 * r) := by
    have h2 : ((t.samples.length : ℤ) : ℚ) ≤
        ((jsCeil ((ts.map trackDuration).foldr max 0 * r) : ℤ) : ℚ) := by
      rw [jsCeil]
      exact hlen.trans (Int.le_ceil _)
    exact_mod_cast h2
  have hnn : 0 ≤ jsCeil ((ts.map trackDuration).foldr max 0 * r) :=
    le_trans (Int.natCast_nonneg _) hceil
  rw [mixOutLen]
  exact (Int.le_toNat hnn).mpr hceil

/-! ## C5 — track mixer contract -/

/-- C5 (counterexample): with a muted 3-frame track and a live 1-frame track
(equal rates), the mixed channel has length 3 — `maxDuration` ranges over
*all* tracks, not the included ones, so the output is not the longest
included track's length (1); a track with `isSolo` and `isMuted` both true
is excluded entirely (`isMuted` is checked first), not included "regardless
of its own mute state" — its would-be contribution `1` is absent and the
output is `[0]`; and an empty track list yields one second of silence at
the context rate (length 5 at rate 5), there being no requested-duration
argument at all. -/
theorem mixAudioTracks_counterexample :
    ((mixAudioTracks (fun p => (1 - p, 1 + p)) 1
        [⟨[0, 0, 0], 1, 100, 0, true, false⟩,
         ⟨[1], 1, 100, 0, false, false⟩]).channels.getD 0 []).length = 3 ∧
    (3 : ℕ) ≠ 1 ∧
    (mixAudioTracks (fun p => (1 - p, 1 + p)) 1
        [⟨[1], 1, 100, 0, true, true⟩]).channels.getD 0 [] = [0] ∧
    ((fun (p : ℚ) => (1 - p, 1 + p)) 0).1 * (100 / 100) * 1 = 1 ∧
    (1 : ℚ) ≠ 0 ∧
    ((mixAudioTracks (fun p => (1 - p, 1 + p)) 5 []).channels.getD 0 []).length = 5 := by
  refine ⟨?_, by norm_num, ?_, by norm_num, by norm_num, by
    simp [mixAudioTracks]⟩
  · norm_num [mixAudioTracks, trackDuration, jsCeil, addTrackToMix, addScaled]
  · norm_num [mixAudioTracks, trackDuration, jsCeil, addTrackToMix, addScaled]

/-- C5 (amended): a track contributes to the mix iff `isMuted = false` and
(no track is solo, or this track is solo) — a muted solo track is excluded;
both output channels have length `⌈maxDuration · rate⌉` where `maxDuration`
ranges over *all* tracks (not only included ones) and `rate` is the first
track's sample rate; each frame of the output is the per-sample sum of the
included tracks' contributions scaled by `volume/100` and panned through
the pan law at `pan/100`; the empty track list yields a one-second stereo
buffer at the context rate; and the 3-track single-solo mix equals the mix
of the solo track alone, frame for frame. -/
theorem mixAudioTracks_contract :
    (∀ (law : ℚ → ℚ × ℚ) (c : ℕ) (t0 : MixTrack) (rest : List MixTrack) (r : ℕ),
      0 < r → (∀ t ∈ t0 :: rest, t.rate = r) →
      (mixAudioTracks law c (t0 :: rest)).sampleRate = r ∧
      (mixAudioTracks law c (t0 :: rest)).channels.length = 2 ∧
      (∀ chl ∈ (mixAudioTracks law c (t0 :: rest)).channels,
        chl.length = mixOutLen (t0 :: rest) r) ∧
      (∀ i : ℕ,
        ((mixAudioTracks law c (t0 :: rest)).channels.getD 0 []).getD i 0 =
          (((t0 :: rest).filter (includedInMix (mixHasSolo (t0 :: rest)))).map
            (mixTermL law i)).sum ∧
        ((mixAudioTracks law c (t0 :: rest)).channels.getD 1 []).getD i 0 =
          (((t0 :: rest).filter (includedInMix (mixHasSolo (t0 :: rest)))).map
            (mixTermR law i)).sum)) ∧
    (∀ (law : ℚ → ℚ × ℚ) (c : ℕ) (a b e : MixTrack) (r : ℕ),
      0 < r → a.rate = r → b.rate = r → e.rate = r →
      a.isSolo = false → b.isSolo = true → e.isSolo = false → b.isMuted = false →
      ∀ (ch i : ℕ),
        ((mixAudioTracks law c [a, b, e]).channels.getD ch []).getD i 0 =
          ((mixAudioTracks law c [b]).channels.getD ch []).getD i 0) := by
  have main : ∀ (law : ℚ → ℚ × ℚ) (c : ℕ) (t0 : MixTrack) (rest : List MixTrack) (r : ℕ),
      0 < r → (∀ t ∈ t0 :: rest, t.rate = r) →
      (mixAudioTracks law c (t0 :: rest)).sampleRate = r ∧
      (mixAudioTracks law c (t0 :: rest)).channels.length = 2 ∧
      (∀ chl ∈ (mixAudioTracks law c (t0 :: rest)).channels,
        chl.length = mixOutLen (t0 :: rest) r) ∧
      (∀ i : ℕ,
        ((mixAudioTracks law c (t0 :: rest)).channels.getD 0 []).getD i 0 =
          (((t0 :: rest).filter (includedInMix (mixHasSolo (t0 :: rest)))).map
            (mixTermL law i)).sum ∧
        ((mixAudioTracks law c (t0 :: rest)).channels.getD 1 []).getD i 0 =
          (((t0 :: rest).filter (includedInMix (mixHasSolo (t0 :: rest)))).map
            (mixTermR law i)).sum) := by
    intro law c t0 rest r hr hrate
    have ht0r : t0.rate = r := hrate t0 (List.mem_cons_self _ _)
    have houtlen : (jsCeil (((t0 :: rest).map trackDuration).foldr max 0 * t0.rate)).toNat =
        mixOutLen (t0 :: rest) r := by
      rw [mixOutLen, ht0r]
    have hfoldlen := mixFold_length law (mixHasSolo (t0 :: rest)) (t0 :: rest)
      (List.replicate (mixOutLen (t0 :: rest) r) 0,
       List.replicate (mixOutLen (t0 :: rest) r) 0)
    have hmix : mixAudioTracks law c (t0 :: rest) =
        ⟨[((t0 :: rest).foldl (fun acc track =>
            if track.isMuted || (mixHasSolo (t0 :: rest) && !track.isSolo) then acc
            else addTrackToMix law track acc)
            (List.replicate (mixOutLen (t0 :: rest) r) 0,
             List.replicate (mixOutLen (t0 :: rest) r) 0)).1,
          ((t0 :: rest).foldl (fun acc track =>
            if track.isMuted || (mixHasSolo (t0 :: rest) && !track.isSolo) then acc
            else addTrackToMix law track acc)
            (List.replicate (mixOutLen (t0 :: rest) r) 0,
             List.replicate (mixOutLen (t0 :: rest) r) 0)).2],
         t0.rate⟩ := by
      rw [mixAudioTracks]
      simp only [mixHasSolo, houtlen]
    refine ⟨by rw [hmix]; exact ht0r, by rw [hmix]; rfl, ?_, ?_⟩
    · intro chl hchl
      rw [hmix] at hchl
      simp only [List.mem_cons, List.mem_singleton, List.not_mem_nil, or_false] at hchl
      rcases hchl with h | h <;> subst h
      · exact hfoldlen.1.trans (by simp)
      · exact hfoldlen.2.trans (by simp)
    · intro i
      by_cases hi : i < mixOutLen (t0 :: rest) r
      · have hgetd := mixFold_getD law (mixHasSolo (t0 :: rest)) (t0 :: rest)
          (List.replicate (mixOutLen (t0 :: rest) r) 0,
           List.replicate (mixOutLen (t0 :: rest) r) 0) i
          (by simpa using hi) (by simpa using hi)
        constructor
        · rw [hmix]
          simp only [List.getD_cons_zero]
          rw [hgetd.1]
          simp [getD_replicate_zero]
        · rw [hmix]
          simp only [List.getD_cons_succ, List.getD_cons_zero]
          rw [hgetd.2]
          simp [getD_replicate_zero]
      · push_neg at hi
        have hzero : ∀ t ∈ (t0 :: rest).filter (includedInMix (mixHasSolo (t0 :: rest))),
            t.samples.getD i 0 = 0 := by
          intro t ht
          have htmem : t ∈ t0 :: rest := List.mem_of_mem_filter ht
          have := track_samples_le_mixOutLen hr hrate htmem
          exact List.getD_eq_default _ _ (le_trans this hi)
        have hsumL : (((t0 :: rest).filter (includedInMix (mixHasSolo (t0 :: rest)))).map
            (mixTermL law i)).sum = 0 := by
          apply List.sum_eq_zero
          intro x hx
          rcases List.mem_map.mp hx with ⟨t, ht, rfl⟩
          rw [mixTermL, hzero t ht, mul_zero]
        have hsumR : (((t0 :: rest).filter (includedInMix (mixHasSolo (t0 :: rest)))).map
            (mixTermR law i)).sum = 0 := by
          apply List.sum_eq_zero
          intro x hx
          rcases List.mem_map.mp hx with ⟨t, ht, rfl⟩
          rw [mixTermR, hzero t ht, mul_zero]
        constructor
        · rw [hmix, hsumL]
          simp only [List.getD_cons_zero]
          exact List.getD_eq_default _ _ (le_of_eq_of_le hfoldlen.1 (by simpa using hi))
        · rw [hmix, hsumR]
          simp only [List.getD_cons_succ, List.getD_cons_zero]
          exact List.getD_eq_default _ _ (le_of_eq_of_le hfoldlen.2 (by simpa using hi))
  refine ⟨main, ?_⟩
  intro law c a b e r hr har hbr her hsa hsb hse hbm ch i
  have h3 := (main law c a [b, e] r hr (by
    intro t ht
    rcases List.mem_cons.mp ht with h | ht'
    · subst h; exact har
    · rcases List.mem_cons.mp ht' with h | ht''
      · subst h; exact hbr
      · rcases List.mem_cons.mp ht'' with h | h
        · subst h; exact her
        · simp at h)).2.2.2 i
  have h1 := (main law c b [] r hr (by
    intro t ht
    rcases List.mem_cons.mp ht with h | h
    · subst h; exact hbr
    · simp at h)).2.2.2 i
  have hsolo3 : mixHasSolo [a, b, e] = true := by
    simp [mixHasSolo, hsb]
  have hsolo1 : mixHasSolo [b] = true := by
    simp [mixHasSolo, hsb]
  have hfa : includedInMix true a = false := by
    simp [includedInMix, hsa]
  have hfe : includedInMix true e = false := by
    simp [includedInMix, hse]
  have hfb : includedInMix true b = true := by
    simp [includedInMix, hsb, hbm]
  have hfilter3 : ([a, b, e].filter (includedInMix (mixHasSolo [a, b, e]))) = [b] := by
    rw [hsolo3]
    simp [List.filter_cons, hfa, hfe, hfb]
  have hfilter1 : ([b].filter (includedInMix (mixHasSolo [b]))) = [b] := by
    rw [hsolo1]
    simp [List.filter_cons, hfb]
  match ch with
  | 0 =>
      rw [h3.1, h1.1, hfilter3, hfilter1]
  | 1 =>
      rw [h3.2, h1.2, hfilter3, hfilter1]
  | (n + 2) =>
      have hc3 : (mixAudioTracks law c [a, b, e]).channels.length = 2 := by
        rw [mixAudioTracks]; rfl
      have hc1 : (mixAudioTracks law c [b]).channels.length = 2 := by
        rw [mixAudioTracks]; rfl
      rw [List.getD_eq_default _ _ (by omega : (mixAudioTracks law c [a, b, e]).channels.length ≤ n + 2),
        List.getD_eq_default _ _ (by omega : (mixAudioTracks law c [b]).channels.length ≤ n + 2)]

/-- C5 (witness): the amended contract applied to three concrete tracks
with only the middle one solo. -/
theorem mixAudioTracks_contract_witness :
    ∀ (ch i : ℕ),
      ((mixAudioTracks (fun p => (1 - p, 1 + p)) 5
          [⟨[2], 1, 100, 0, false, false⟩, ⟨[3], 1, 50, 10, false, true⟩,
           ⟨[4], 1, 100, 0, true, false⟩]).channels.getD ch []).getD i 0 =
        ((mixAudioTracks (fun p => (1 - p, 1 + p)) 5
          [⟨[3], 1, 50, 10, false, true⟩]).channels.getD ch []).getD i 0 :=
  mixAudioTracks_contract.2 (fun p => (1 - p, 1 + p)) 5 _ _ _ 1
    (by norm_num) rfl rfl rfl rfl rfl rfl rfl

/-! ## WAV encoder lemmas -/

lemma writeString_RIFF : writeString "RIFF" = [82, 73, 70, 70] := rfl

lemma writeString_WAVE : writeString "WAVE" = [87, 65, 86, 69] := rfl

lemma writeString_fmt : writeString "fmt " = [102, 109, 116, 32] := rfl

lemma writeString_data : writeString "data" = [100, 97, 116, 97] := rfl

/-- The header, flattened to its 44 bytes. -/
lemma wavHeader_explicit (nc fr sr bd : ℕ) :
    wavHeader nc fr sr bd =
      [82, 73, 70, 70,
       (44 + fr * (nc * (bd / 8)) - 8) % 256, (44 + fr * (nc * (bd / 8)) - 8) / 256 % 256,
       (44 + fr * (nc * (bd / 8)) - 8) / 65536 % 256,
       (44 + fr * (nc * (bd / 8)) - 8) / 16777216 % 256,
       87, 65, 86, 69,
       102, 109, 116, 32,
       16, 0, 0, 0,
       1, 0,
       nc % 256, nc / 256 % 256,
       sr % 256, sr / 256 % 256, sr / 65536 % 256, sr / 16777216 % 256,
       sr * (nc * (bd / 8)) % 256, sr * (nc * (bd / 8)) / 256 % 256,
       sr * (nc * (bd / 8)) / 65536 % 256, sr * (nc * (bd / 8)) / 16777216 % 256,
       nc * (bd / 8) % 256, nc * (bd / 8) / 256 % 256,
       bd % 256, bd / 256 % 256,
       100, 97, 116, 97,
       fr * (nc * (bd / 8)) % 256, fr * (nc * (bd / 8)) / 256 % 256,
       fr * (nc * (bd / 8)) / 65536 % 256, fr * (nc * (bd / 8)) / 16777216 % 256] := by
  simp [wavHeader, u16le, u32le, writeString_RIFF, writeString_WAVE, writeString_fmt,
    writeString_data]

lemma wavHeader_length (nc fr sr bd : ℕ) : (wavHeader nc fr sr bd).length = 44 := by
  rw [wavHeader_explicit]
  rfl

lemma exportToWAV_eq (b : SampleBuffer) (sr bd : ℕ) :
    exportToWAV b sr bd =
      wavHeader b.channels.length b.frameCount sr bd ++
        pcmData bd b.channels b.frameCount := by
  rw [exportToWAV]
  by_cases h : b.sampleRate = sr <;> simp [h, resampleBuffer]

/-- All fourteen header fields of the emitted 44-byte RIFF/WAVE header, read
back little-endian, equal their documented values (under no-overflow
bounds). -/
lemma wavHeader_fields (nc fr sr bd : ℕ) (rest : List ℕ)
    (hsize : 44 + fr * (nc * (bd / 8)) < 4294967296)
    (hnc : nc < 65536) (hsr : sr < 4294967296)
    (hbr : sr * (nc * (bd / 8)) < 4294967296)
    (hba : nc * (bd / 8) < 65536) (hbd : bd < 65536) :
    (wavHeader nc fr sr bd ++ rest).take 4 = [82, 73, 70, 70] ∧
    readU32 (wavHeader nc fr sr bd ++ rest) 4 = 44 + fr * (nc * (bd / 8)) - 8 ∧
    ((wavHeader nc fr sr bd ++ rest).drop 8).take 4 = [87, 65, 86, 69] ∧
    ((wavHeader nc fr sr bd ++ rest).drop 12).take 4 = [102, 109, 116, 32] ∧
    readU32 (wavHeader nc fr sr bd ++ rest) 16 = 16 ∧
    readU16 (wavHeader nc fr sr bd ++ rest) 20 = 1 ∧
    readU16 (wavHeader nc fr sr bd ++ rest) 22 = nc ∧
    readU32 (wavHeader nc fr sr bd ++ rest) 24 = sr ∧
    readU32 (wavHeader nc fr sr bd ++ rest) 28 = sr * (nc * (bd / 8)) ∧
    readU16 (wavHeader nc fr sr bd ++ rest) 32 = nc * (bd / 8) ∧
    readU16 (wavHeader nc fr sr bd ++ rest) 34 = bd ∧
    ((wavHeader nc fr sr bd ++ rest).drop 36).take 4 = [100, 97, 116, 97] ∧
    readU32 (wavHeader nc fr sr bd ++ rest) 40 = fr * (nc * (bd / 8)) := by
  rw [wavHeader_explicit]
  refine ⟨rfl, ?_, rfl, rfl, ?_, ?_, ?_, ?_, ?_, ?_, ?_, rfl, ?_⟩
  · show (44 + fr * (nc * (bd / 8)) - 8) % 256 +
        256 * ((44 + fr * (nc * (bd / 8)) - 8) / 256 % 256) +
        65536 * ((44 + fr * (nc * (bd / 8)) - 8) / 65536 % 256) +
        16777216 * ((44 + fr * (nc * (bd / 8)) - 8) / 16777216 % 256) =
      44 + fr * (nc * (bd / 8)) - 8
    omega
  · show 16 % 256 + 256 * (16 / 256 % 256) + 65536 * (16 / 65536 % 256) +
        16777216 * (16 / 16777216 % 256) = 16
    omega
  · show 1 % 256 + 256 * (1 / 256 % 256) = 1
    omega
  · show nc % 256 + 256 * (nc / 256 % 256) = nc
    omega
  · show sr % 256 + 256 * (sr / 256 % 256) + 65536 * (sr / 65536 % 256) +
        16777216 * (sr / 16777216 % 256) = sr
    omega
  · show sr * (nc * (bd / 8)) % 256 + 256 * (sr * (nc * (bd / 8)) / 256 % 256) +
        65536 * (sr * (nc * (bd / 8)) / 65536 % 256) +
        16777216 * (sr * (nc * (bd / 8)) / 16777216 % 256) = sr * (nc * (bd / 8))
    omega
  · show nc * (bd / 8) % 256 + 256 * (nc * (bd / 8) / 256 % 256) = nc * (bd / 8)
    omega
  · show bd % 256 + 256 * (bd / 256 % 256) = bd
    omega
  · show fr * (nc * (bd / 8)) % 256 + 256 * (fr * (nc * (bd / 8)) / 256 % 256) +
        65536 * (fr * (nc * (bd / 8)) / 65536 % 256) +
        16777216 * (fr * (nc * (bd / 8)) / 16777216 % 256) = fr * (nc * (bd / 8))
    omega

lemma sampleBytes_length {bd : ℕ} (hbd : bd = 16 ∨ bd = 24 ∨ bd = 32) (s : ℚ) :
    (sampleBytes bd s).length = bd / 8 := by
  rcases hbd with h | h | h <;> subst h <;> rfl

lemma flatMap_fixed_extract {α : Type} (f : α → List ℕ) (m : ℕ) :
    ∀ (l : List α) (i : ℕ), (∀ a ∈ l, (f a).length = m) → ∀ hi : i < l.length,
      ((l.flatMap f).drop (i * m)).take m = f (l.get ⟨i, hi⟩) := by
  intro l
  induction l with
  | nil => intro i _ hi; simp at hi
  | cons a l ih =>
      intro i hf hi
      cases i with
      | zero =>
          simp only [List.flatMap_cons, Nat.zero_mul, List.drop_zero]
          rw [← hf a (List.mem_cons_self a l), List.take_left]
          rfl
      | succ i =>
          simp only [List.flatMap_cons]
          rw [show (i + 1) * m = (f a).length + i * m by
                rw [hf a (List.mem_cons_self a l)]; ring,
            List.drop_append]
          exact ih i (fun x hx => hf x (List.mem_cons_of_mem _ hx)) (by simpa using hi)

lemma segment_of_segment {l seg : List ℕ} {p q a b : ℕ}
    (h : (l.drop p).take q = seg) (hab : a + b ≤ q) :
    (l.drop (p + a)).take b = (seg.drop a).take b := by
  rw [← h, List.drop_take, List.take_take, min_eq_left (by omega), ← List.drop_drop]

lemma inner_pcm_length {bd : ℕ} (hbd : bd = 16 ∨ bd = 24 ∨ bd = 32)
    (chans : List (List ℚ)) (i : ℕ) :
    (chans.flatMap fun ch => sampleBytes bd (ch.getD i 0)).length =
      chans.length * (bd / 8) := by
  induction chans with
  | nil => simp
  | cons c cs ih =>
      simp only [List.flatMap_cons, List.length_append, ih,
        sampleBytes_length hbd, List.length_cons]
      ring

lemma range_flatMap_length (n m : ℕ) (F : ℕ → List ℕ) (hF : ∀ i, (F i).length = m) :
    ((List.range n).flatMap F).length = n * m := by
  induction n with
  | zero => simp
  | succ n ih =>
      rw [List.range_succ]
      simp [List.flatMap_append, ih, hF]
      ring

lemma pcmData_length {bd : ℕ} (hbd : bd = 16 ∨ bd = 24 ∨ bd = 32)
    (chans : List (List ℚ)) (fr : ℕ) :
    (pcmData bd chans fr).length = fr * (chans.length * (bd / 8)) := by
  rw [pcmData]
  exact range_flatMap_length fr _ _ (fun i => inner_pcm_length hbd chans i)

/-- Per-sample extraction: the `bd/8` bytes at frame `i`, channel `ch` of the
PCM payload are exactly the bytes the sample loop wrote for that sample. -/
lemma pcmData_extract {bd : ℕ} (hbd : bd = 16 ∨ bd = 24 ∨ bd = 32)
    (chans : List (List ℚ)) (fr : ℕ) (i ch : ℕ) (hi : i < fr)
    (hch : ch < chans.length) :
    ((pcmData bd chans fr).drop ((i * chans.length + ch) * (bd / 8))).take (bd / 8) =
      sampleBytes bd ((chans.get ⟨ch, hch⟩).getD i 0) := by
  have houter := flatMap_fixed_extract
    (fun j => chans.flatMap fun c => sampleBytes bd (c.getD j 0))
    (chans.length * (bd / 8)) (List.range fr) i
    (fun a _ => inner_pcm_length hbd chans a) (by simpa using hi)
  rw [List.get_range] at houter
  have hseg : ((pcmData bd chans fr).drop
      (i * (chans.length * (bd / 8)) + ch * (bd / 8))).take (bd / 8) =
      (((chans.flatMap fun c => sampleBytes bd (c.getD i 0)).drop
        (ch * (bd / 8))).take (bd / 8)) := by
    have hinner : ch * (bd / 8) + bd / 8 ≤ chans.length * (bd / 8) := by
      have : ch + 1 ≤ chans.length := hch
      calc ch * (bd / 8) + bd / 8 = (ch + 1) * (bd / 8) := by ring
        _ ≤ chans.length * (bd / 8) := Nat.mul_le_mul_right _ this
    exact segment_of_segment (l := pcmData bd chans fr)
      (p := i * (chans.length * (bd / 8))) (q := chans.length * (bd / 8))
      (a := ch * (bd / 8)) (b := bd / 8) houter hinner
  have hinner2 := flatMap_fixed_extract (fun c => sampleBytes bd (c.getD i 0))
    (bd / 8) chans ch (fun c _ => sampleBytes_length hbd _) hch
  rw [show (i * chans.length + ch) * (bd / 8) =
      i * (chans.length * (bd / 8)) + ch * (bd / 8) by ring, hseg]
  exact hinner2

/-! ## Sample conversion lemmas -/

lemma wav16Value_bounds (s : ℚ) :
    -32768 ≤ wav16Value s ∧ wav16Value s ≤ 32767 := by
  rw [wav16Value]
  set c := max (-1 : ℚ) (min 1 s) with hc
  have hc1 : -1 ≤ c := le_max_left _ _
  have hc2 : c ≤ 1 := max_le (by norm_num) (min_le_left _ _)
  by_cases hneg : c < 0
  · have hq : c * 32768 < 0 := mul_neg_of_neg_of_pos hneg (by norm_num)
    rw [if_pos hneg, jsTrunc, if_neg (not_le.mpr hq)]
    constructor
    · have h1 : ⌈(-32768 : ℚ)⌉ ≤ ⌈c * 32768⌉ := Int.ceil_le_ceil (by nlinarith)
      norm_num at h1
      exact h1
    · have h1 : ⌈c * 32768⌉ ≤ ⌈(0 : ℚ)⌉ := Int.ceil_le_ceil (le_of_lt hq)
      norm_num at h1
      omega
  · push_neg at hneg
    have hq : 0 ≤ c * 32767 := mul_nonneg hneg (by norm_num)
    rw [if_neg (not_lt.mpr hneg), jsTrunc, if_pos hq]
    constructor
    · have h1 : ⌊(0 : ℚ)⌋ ≤ ⌊c * 32767⌋ := Int.floor_le_floor hq
      norm_num at h1
      omega
    · have h1 : ⌊c * 32767⌋ ≤ ⌊(32767 : ℚ)⌋ := Int.floor_le_floor (by nlinarith)
      norm_num at h1
      exact h1

lemma wav24Value_bounds (s : ℚ) :
    -8388608 ≤ wav24Value s ∧ wav24Value s ≤ 8388607 := by
  rw [wav24Value]
  set c := max (-1 : ℚ) (min 1 s) with hc
  have hc1 : -1 ≤ c := le_max_left _ _
  have hc2 : c ≤ 1 := max_le (by norm_num) (min_le_left _ _)
  by_cases hneg : c < 0
  · have hq : c * 8388608 < 0 := mul_neg_of_neg_of_pos hneg (by norm_num)
    rw [if_pos hneg, jsTrunc, if_neg (not_le.mpr hq)]
    constructor
    · have h1 : ⌈(-8388608 : ℚ)⌉ ≤ ⌈c * 8388608⌉ := Int.ceil_le_ceil (by nlinarith)
      norm_num at h1
      exact h1
    · have h1 : ⌈c * 8388608⌉ ≤ ⌈(0 : ℚ)⌉ := Int.ceil_le_ceil (le_of_lt hq)
      norm_num at h1
      omega
  · push_neg at hneg
    have hq : 0 ≤ c * 8388607 := mul_nonneg hneg (by norm_num)
    rw [if_neg (not_lt.mpr hneg), jsTrunc, if_pos hq]
    constructor
    · have h1 : ⌊(0 : ℚ)⌋ ≤ ⌊c * 8388607⌋ := Int.floor_le_floor hq
      norm_num at h1
      omega
    · have h1 : ⌊c * 8388607⌋ ≤ ⌊(8388607 : ℚ)⌋ := Int.floor_le_floor (by nlinarith)
      norm_num at h1
      exact h1

lemma sampleBytes_16 (s : ℚ) : sampleBytes 16 s = leBytes 2 (wav16Value s) := by
  show [(wav16Value s % 65536).toNat % 256, (wav16Value s % 65536).toNat / 256 % 256] =
    leBytes 2 (wav16Value s)
  have h : leBytes 2 (wav16Value s) =
      [(wav16Value s % 65536).toNat / 1 % 256,
       (wav16Value s % 65536).toNat / 256 % 256] := rfl
  rw [h, Nat.div_one]

lemma sampleBytes_24 (s : ℚ) : sampleBytes 24 s = leBytes 3 (wav24Value s) := by
  obtain ⟨h1, h2⟩ := wav24Value_bounds s
  show [(wav24Value s % 256).toNat, ((wav24Value s).fdiv 256 % 256).toNat,
      ((wav24Value s).fdiv 65536 % 256).toNat] = leBytes 3 (wav24Value s)
  have h : leBytes 3 (wav24Value s) =
      [(wav24Value s % 16777216).toNat / 1 % 256,
       (wav24Value s % 16777216).toNat / 256 % 256,
       (wav24Value s % 16777216).toNat / 65536 % 256] := rfl
  rw [h, Int.fdiv_eq_ediv _ (by norm_num), Int.fdiv_eq_ediv _ (by norm_num)]
  set v := wav24Value s with hv
  simp only [List.cons.injEq, and_true]
  refine ⟨?_, ?_, ?_⟩ <;> omega

lemma sampleBytes_32 (s : ℚ) : sampleBytes 32 s = leBytes 4 (wav32Value s) := by
  show [(wav32Value s % 4294967296).toNat % 256,
      (wav32Value s % 4294967296).toNat / 256 % 256,
      (wav32Value s % 4294967296).toNat / 65536 % 256,
      (wav32Value s % 4294967296).toNat / 16777216 % 256] = leBytes 4 (wav32Value s)
  have h : leBytes 4 (wav32Value s) =
      [(wav32Value s % 4294967296).toNat / 1 % 256,
       (wav32Value s % 4294967296).toNat / 256 % 256,
       (wav32Value s % 4294967296).toNat / 65536 % 256,
       (wav32Value s % 4294967296).toNat / 16777216 % 256] := rfl
  rw [h, Nat.div_one]

lemma sampleBytes_eq_leBytes {bd : ℕ} (hbd : bd = 16 ∨ bd = 24 ∨ bd = 32) (s : ℚ) :
    sampleBytes bd s = leBytes (bd / 8) (pcmIntValue bd s) := by
  rcases hbd with h | h | h <;> subst h
  · rw [show pcmIntValue 16 s = wav16Value s from rfl]
    exact sampleBytes_16 s
  · rw [show pcmIntValue 24 s = wav24Value s from rfl]
    exact sampleBytes_24 s
  · rw [show pcmIntValue 32 s = wav32Value s from rfl]
    exact sampleBytes_32 s

lemma wav16Value_zero : wav16Value 0 = 0 := by
  rw [wav16Value]
  norm_num [jsTrunc]

lemma wav24Value_zero : wav24Value 0 = 0 := by
  rw [wav24Value]
  norm_num [jsTrunc]

lemma wav32Value_zero : wav32Value 0 = 0 := by
  rw [wav32Value]
  norm_num [jsTrunc]

lemma sampleBytes_zero {bd : ℕ} (hbd : bd = 16 ∨ bd = 24 ∨ bd = 32) :
    sampleBytes bd 0 = List.replicate (bd / 8) 0 := by
  rcases hbd with h | h | h <;> subst h
  · show [((wav16Value 0) % 65536).toNat % 256, ((wav16Value 0) % 65536).toNat / 256 % 256] = _
    rw [wav16Value_zero]
    rfl
  · show [((wav24Value 0) % 256).toNat, ((wav24Value 0).fdiv 256 % 256).toNat,
        ((wav24Value 0).fdiv 65536 % 256).toNat] = _
    rw [wav24Value_zero]
    rfl
  · show [((wav32Value 0) % 4294967296).toNat % 256,
        ((wav32Value 0) % 4294967296).toNat / 256 % 256,
        ((wav32Value 0) % 4294967296).toNat / 65536 % 256,
        ((wav32Value 0) % 4294967296).toNat / 16777216 % 256] = _
    rw [wav32Value_zero]
    rfl

lemma getD_zero_of_all_zero (c : List ℚ) (h : ∀ x ∈ c, x = 0) (i : ℕ) :
    c.getD i 0 = 0 := by
  induction c generalizing i with
  | nil => rfl
  | cons a c ih =>
      cases i with
      | zero => exact h a (List.mem_cons_self a c)
      | succ i => exact ih (fun x hx => h x (List.mem_cons_of_mem _ hx)) i

/-! ## C6 — WAV encoding -/

/-- C6 (confirmed): for every buffer, requested sample rate, and bit depth
in {16, 24, 32} (under no-overflow bounds on the 16/32-bit header fields),
`exportToWAV` emits the 44-byte canonical RIFF/WAVE header with the
documented field values — chunk size = total − 8, PCM format tag 1, channel
count, sample rate, byte rate, block align, bits per sample, data chunk
size = frames·channels·bitDepth/8 — followed by channel-interleaved
little-endian PCM in which the bytes for frame `i`, channel `ch` are the
little-endian two's-complement encoding of the sample clamped to [-1,1] and
scaled asymmetrically (negative by 0x8000/0x800000/0x80000000, non-negative
by 0x7FFF/0x7FFFFF/0x7FFFFFFF, truncated); for 16-bit the total byte length
is exactly 44 + channels·frames·2 and an all-zero input yields all-zero PCM
data. -/
theorem exportToWAV_spec (b : SampleBuffer) (sr bd : ℕ)
    (hbd : bd = 16 ∨ bd = 24 ∨ bd = 32)
    (hsize : 44 + b.frameCount * (b.channels.length * (bd / 8)) < 4294967296)
    (hnc : b.channels.length < 65536)
    (hsr : sr < 4294967296)
    (hbr : sr * (b.channels.length * (bd / 8)) < 4294967296)
    (hba : b.channels.length * (bd / 8) < 65536) :
    (exportToWAV b sr bd).length =
      44 + b.frameCount * (b.channels.length * (bd / 8)) ∧
    (exportToWAV b sr bd).take 4 = [82, 73, 70, 70] ∧
    readU32 (exportToWAV b sr bd) 4 = (exportToWAV b sr bd).length - 8 ∧
    ((exportToWAV b sr bd).drop 8).take 4 = [87, 65, 86, 69] ∧
    ((exportToWAV b sr bd).drop 12).take 4 = [102, 109, 116, 32] ∧
    readU32 (exportToWAV b sr bd) 16 = 16 ∧
    readU16 (exportToWAV b sr bd) 20 = 1 ∧
    readU16 (exportToWAV b sr bd) 22 = b.channels.length ∧
    readU32 (exportToWAV b sr bd) 24 = sr ∧
    readU32 (exportToWAV b sr bd) 28 = sr * (b.channels.length * (bd / 8)) ∧
    readU16 (exportToWAV b sr bd) 32 = b.channels.length * (bd / 8) ∧
    readU16 (exportToWAV b sr bd) 34 = bd ∧
    ((exportToWAV b sr bd).drop 36).take 4 = [100, 97, 116, 97] ∧
    readU32 (exportToWAV b sr bd) 40 =
      b.frameCount * (b.channels.length * (bd / 8)) ∧
    (exportToWAV b sr bd).drop 44 = pcmData bd b.channels b.frameCount ∧
    (∀ (i ch : ℕ) (_hi : i < b.frameCount) (hch : ch < b.channels.length),
      (((exportToWAV b sr bd).drop 44).drop
          ((i * b.channels.length + ch) * (bd / 8))).take (bd / 8) =
        leBytes (bd / 8) (pcmIntValue bd ((b.channels.get ⟨ch, hch⟩).getD i 0))) ∧
    (bd = 16 →
      (exportToWAV b sr bd).length = 44 + b.channels.length * b.frameCount * 2) ∧
    ((∀ c ∈ b.channels, ∀ x ∈ c, x = (0 : ℚ)) →
      ∀ byte ∈ (exportToWAV b sr bd).drop 44, byte = 0) := by
  have hbd16 : bd < 65536 := by rcases hbd with h | h | h <;> omega
  have hexp := exportToWAV_eq b sr bd
  have hfields := wavHeader_fields b.channels.length b.frameCount sr bd
    (pcmData bd b.channels b.frameCount) hsize hnc hsr hbr hba hbd16
  have hlen : (exportToWAV b sr bd).length =
      44 + b.frameCount * (b.channels.length * (bd / 8)) := by
    rw [hexp, List.length_append, wavHeader_length, pcmData_length hbd]
  have hdrop44 : (exportToWAV b sr bd).drop 44 =
      pcmData bd b.channels b.frameCount := by
    rw [hexp, show (44 : ℕ) =
      (wavHeader b.channels.length b.frameCount sr bd).length from
        (wavHeader_length _ _ _ _).symm, List.drop_left]
  refine ⟨hlen, ?_, ?_, ?_, ?_, ?_, ?_, ?_, ?_, ?_, ?_, ?_, ?_, ?_, hdrop44,
    ?_, ?_, ?_⟩
  · rw [hexp]; exact hfields.1
  · rw [hlen, hexp]
    exact hfields.2.1
  · rw [hexp]; exact hfields.2.2.1
  · rw [hexp]; exact hfields.2.2.2.1
  · rw [hexp]; exact hfields.2.2.2.2.1
  · rw [hexp]; exact hfields.2.2.2.2.2.1
  · rw [hexp]; exact hfields.2.2.2.2.2.2.1
  · rw [hexp]; exact hfields.2.2.2.2.2.2.2.1
  · rw [hexp]; exact hfields.2.2.2.2.2.2.2.2.1
  · rw [hexp]; exact hfields.2.2.2.2.2.2.2.2.2.1
  · rw [hexp]; exact hfields.2.2.2.2.2.2.2.2.2.2.1
  · rw [hexp]; exact hfields.2.2.2.2.2.2.2.2.2.2.2.1
  · rw [hexp]; exact hfields.2.2.2.2.2.2.2.2.2.2.2.2
  · intro i ch hi hch
    rw [hdrop44, pcmData_extract hbd b.channels b.frameCount i ch hi hch,
      sampleBytes_eq_leBytes hbd]
  · intro h16
    subst h16
    rw [hlen]
    congr 1
    ring
  · intro hz byte hb
    rw [hdrop44] at hb
    rcases List.mem_flatMap.mp hb with ⟨i, _, hb2⟩
    rcases List.mem_flatMap.mp hb2 with ⟨c, hc, hb3⟩
    rw [getD_zero_of_all_zero c (hz c hc) i, sampleBytes_zero hbd] at hb3
    exact (List.mem_replicate.mp hb3).2

/-- C6 (witness): a concrete all-zero mono two-frame buffer at 16-bit. -/
theorem exportToWAV_spec_witness :
    (exportToWAV ⟨[[0, 0]], 44100⟩ 44100 16).length =
      44 + (⟨[[0, 0]], 44100⟩ : SampleBuffer).frameCount *
        ((⟨[[0, 0]], 44100⟩ : SampleBuffer).channels.length * (16 / 8)) ∧
    (exportToWAV ⟨[[0, 0]], 44100⟩ 44100 16).take 4 = [82, 73, 70, 70] ∧
    readU32 (exportToWAV ⟨[[0, 0]], 44100⟩ 44100 16) 4 =
      (exportToWAV ⟨[[0, 0]], 44100⟩ 44100 16).length - 8 ∧
    ((exportToWAV ⟨[[0, 0]], 44100⟩ 44100 16).drop 8).take 4 = [87, 65, 86, 69] ∧
    ((exportToWAV ⟨[[0, 0]], 44100⟩ 44100 16).drop 12).take 4 = [102, 109, 116, 32] ∧
    readU32 (exportToWAV ⟨[[0, 0]], 44100⟩ 44100 16) 16 = 16 ∧
    readU16 (exportToWAV ⟨[[0, 0]], 44100⟩ 44100 16) 20 = 1 ∧
    readU16 (exportToWAV ⟨[[0, 0]], 44100⟩ 44100 16) 22 =
      (⟨[[0, 0]], 44100⟩ : SampleBuffer).channels.length ∧
    readU32 (exportToWAV ⟨[[0, 0]], 44100⟩ 44100 16) 24 = 44100 ∧
    readU32 (exportToWAV ⟨[[0, 0]], 44100⟩ 44100 16) 28 =
      44100 * ((⟨[[0, 0]], 44100⟩ : SampleBuffer).channels.length * (16 / 8)) ∧
    readU16 (exportToWAV ⟨[[0, 0]], 44100⟩ 44100 16) 32 =
      (⟨[[0, 0]], 44100⟩ : SampleBuffer).channels.length * (16 / 8) ∧
    readU16 (exportToWAV ⟨[[0, 0]], 44100⟩ 44100 16) 34 = 16 ∧
    ((exportToWAV ⟨[[0, 0]], 44100⟩ 44100 16).drop 36).take 4 = [100, 97, 116, 97] ∧
    readU32 (exportToWAV ⟨[[0, 0]], 44100⟩ 44100 16) 40 =
      (⟨[[0, 0]], 44100⟩ : SampleBuffer).frameCount *
        ((⟨[[0, 0]], 44100⟩ : SampleBuffer).channels.length * (16 / 8)) ∧
    (exportToWAV ⟨[[0, 0]], 44100⟩ 44100 16).drop 44 =
      pcmData 16 (⟨[[0, 0]], 44100⟩ : SampleBuffer).channels
        (⟨[[0, 0]], 44100⟩ : SampleBuffer).frameCount ∧
    (∀ (i ch : ℕ) (_hi : i < (⟨[[0, 0]], 44100⟩ : SampleBuffer).frameCount)
        (hch : ch < (⟨[[0, 0]], 44100⟩ : SampleBuffer).channels.length),
      (((exportToWAV ⟨[[0, 0]], 44100⟩ 44100 16).drop 44).drop
          ((i * (⟨[[0, 0]], 44100⟩ : SampleBuffer).channels.length + ch) * (16 / 8))).take
        (16 / 8) =
        leBytes (16 / 8) (pcmIntValue 16
          (((⟨[[0, 0]], 44100⟩ : SampleBuffer).channels.get ⟨ch, hch⟩).getD i 0))) ∧
    ((16 : ℕ) = 16 →
      (exportToWAV ⟨[[0, 0]], 44100⟩ 44100 16).length =
        44 + (⟨[[0, 0]], 44100⟩ : SampleBuffer).channels.length *
          (⟨[[0, 0]], 44100⟩ : SampleBuffer).frameCount * 2) ∧
    ((∀ c ∈ (⟨[[0, 0]], 44100⟩ : SampleBuffer).channels, ∀ x ∈ c, x = (0 : ℚ)) →
      ∀ byte ∈ (exportToWAV ⟨[[0, 0]], 44100⟩ 44100 16).drop 44, byte = 0) :=
  exportToWAV_spec ⟨[[0, 0]], 44100⟩ 44100 16 (Or.inl rfl)
    (by norm_num [SampleBuffer.frameCount]) (by norm_num) (by norm_num)
    (by norm_num) (by norm_num)

/-! ## C7 — resample before conversion -/

/-- C7 (code bug evaluated): `resampleBuffer` returns its input unchanged —
its own comment says "For now, return original buffer" — so exporting a
16-frame buffer recorded at 48000 Hz with a requested rate of 44100 Hz
writes a header declaring 44100 Hz over a payload that still holds all 16
original 48000 Hz frames (32 data bytes), although a genuine resample
would produce `Math.round(16 / (48000/44100)) = 15` frames.  The PCM
payload therefore does not contain data at the sample rate declared in the
header. -/
theorem exportToWAV_resample_is_identity :
    resampleBuffer ⟨[List.replicate 16 (1/2)], 48000⟩ 44100 =
      (⟨[List.replicate 16 (1/2)], 48000⟩ : SampleBuffer) ∧
    (⟨[List.replicate 16 (1/2)], 48000⟩ : SampleBuffer).sampleRate ≠ 44100 ∧
    readU32 (exportToWAV ⟨[List.replicate 16 (1/2)], 48000⟩ 44100 16) 24 = 44100 ∧
    (exportToWAV ⟨[List.replicate 16 (1/2)], 48000⟩ 44100 16).length =
      44 + 16 * 2 ∧
    (exportToWAV ⟨[List.replicate 16 (1/2)], 48000⟩ 44100 16).drop 44 =
      pcmData 16 [List.replicate 16 (1/2)] 16 ∧
    (jsRound ((16 : ℚ) / ((48000 : ℚ) / 44100))).toNat = 15 ∧ (15 : ℕ) ≠ 16 := by
  have hfr : (⟨[List.replicate 16 (1/2)], 48000⟩ : SampleBuffer).frameCount = 16 := by
    simp [SampleBuffer.frameCount]
  have hspec := exportToWAV_spec ⟨[List.replicate 16 (1/2)], 48000⟩ 44100 16
    (Or.inl rfl) (by rw [hfr]; norm_num) (by norm_num) (by norm_num)
    (by norm_num) (by norm_num)
  refine ⟨rfl, by norm_num, hspec.2.2.2.2.2.2.2.2.1, ?_, ?_, ?_, by norm_num⟩
  · rw [hspec.1, hfr]
    norm_num
  · have h15 := hspec.2.2.2.2.2.2.2.2.2.2.2.2.2.2.1
    rw [hfr] at h15
    exact h15
  · rw [jsRound]
    norm_num
    decide

/-! ## MP3 encoder lemmas -/

lemma if_len_id (l : List ℕ) : (if l.length > 0 then l else []) = l := by
  cases l <;> simp

lemma mp3Blocks_flatten (s : List ℤ) : (mp3Blocks s).flatten = s := by
  induction s using mp3Blocks.induct with
  | case1 => simp [mp3Blocks]
  | case2 a rest ih =>
      rw [mp3Blocks, List.flatten_cons, ih, List.take_append_drop]

lemma mp3Blocks_block_le (s bl : List ℤ) (h : bl ∈ mp3Blocks s) :
    bl.length ≤ 1152 ∧ bl ≠ [] := by
  induction s using mp3Blocks.induct with
  | case1 => simp [mp3Blocks] at h
  | case2 a rest ih =>
      rw [mp3Blocks] at h
      rcases List.mem_cons.mp h with h1 | h1
      · subst h1
        exact ⟨List.length_take_le 1152 (a :: rest), by simp⟩
      · exact ih h1

lemma mp3Blocks_full (s : List ℤ) (i : ℕ) (h : i + 1 < (mp3Blocks s).length) :
    ((mp3Blocks s).getD i []).length = 1152 := by
  induction s using mp3Blocks.induct generalizing i with
  | case1 => simp [mp3Blocks] at h
  | case2 a rest ih =>
      rw [mp3Blocks] at h ⊢
      cases i with
      | zero =>
          have hne : mp3Blocks ((a :: rest).drop 1152) ≠ [] := by
            intro he
            rw [he] at h
            simp at h
          have hd : (a :: rest).drop 1152 ≠ [] := by
            intro he
            rw [he] at hne
            simp [mp3Blocks] at hne
          have hlen : 1152 < (a :: rest).length := by
            by_contra hx
            exact hd (List.drop_eq_nil_iff.mpr (by omega))
          simp only [List.getD_cons_zero, List.length_take]
          omega
      | succ i =>
          simp only [List.getD_cons_succ]
          apply ih
          simp only [List.length_cons] at h
          omega

lemma mp3Loop_eq_encodeBlockPairs {σ : Type} (enc : Mp3Encoder σ) :
    ∀ (st : σ) (l r : List ℤ), r.length = l.length →
      mp3Loop enc st l r = encodeBlockPairs enc st ((mp3Blocks l).zip (mp3Blocks r)) := by
  intro st l r
  induction st, l, r using mp3Loop.induct enc with
  | case1 st r hfin =>
      intro _
      rw [mp3Loop]
      simp [mp3Blocks, encodeBlockPairs, if_len_id]
  | case2 st r hfin =>
      intro _
      rw [mp3Loop]
      simp [mp3Blocks, encodeBlockPairs, if_len_id]
  | case3 st r a rest step ih =>
      intro hlen
      cases r with
      | nil => simp at hlen
      | cons b rs =>
          rw [mp3Loop, mp3Blocks, mp3Blocks]
          simp only [List.zip_cons_cons, encodeBlockPairs, if_len_id]
          rw [ih (by simp only [List.length_drop]; omega)]
          rfl

/-! ## C8 — MP3 block accumulation -/

/-- C8 (confirmed): the MP3 encoder converts each channel to 16-bit PCM with
the same clamp-then-asymmetric-scale rule as the 16-bit WAV writer; the
block loop partitions the samples, in order, into chunks of at most 1152
(all but the last exactly 1152, and their concatenation restores every
sample — none lost for lengths not divisible by 1152); the emitted bytes
are exactly the encoder's outputs on those blocks, in order, followed by
the end-of-stream flush output; and a mono buffer feeds its single channel
as both encoder inputs. -/
theorem mp3_block_accumulation {σ : Type} (enc : Mp3Encoder σ) (st : σ) :
    (∀ s : List ℤ, (mp3Blocks s).flatten = s) ∧
    (∀ s bl : List ℤ, bl ∈ mp3Blocks s → bl.length ≤ 1152 ∧ bl ≠ []) ∧
    (∀ (s : List ℤ) (i : ℕ), i + 1 < (mp3Blocks s).length →
      ((mp3Blocks s).getD i []).length = 1152) ∧
    (∀ (st' : σ) (l r : List ℤ), r.length = l.length →
      mp3Loop enc st' l r =
        encodeBlockPairs enc st' ((mp3Blocks l).zip (mp3Blocks r))) ∧
    (∀ s : ℚ, mp3SampleToInt16 s = wav16Value s) ∧
    (∀ (c : List ℚ) (sr : ℕ),
      exportToMP3 enc st ⟨[c], sr⟩ =
        mp3Loop enc st (c.map mp3SampleToInt16) (c.map mp3SampleToInt16)) ∧
    (∀ (cl cr : List ℚ) (sr : ℕ),
      exportToMP3 enc st ⟨[cl, cr], sr⟩ =
        mp3Loop enc st (cl.map mp3SampleToInt16) (cr.map mp3SampleToInt16)) := by
  refine ⟨mp3Blocks_flatten, mp3Blocks_block_le, mp3Blocks_full,
    mp3Loop_eq_encodeBlockPairs enc, fun _ => rfl, ?_, ?_⟩
  · intro c sr
    rfl
  · intro cl cr sr
    rfl

/-- C8 (witness): the loop/blocks equivalence at a concrete encoder and
concrete equal-length channels. -/
theorem mp3_block_accumulation_witness :
    mp3Loop ⟨fun st l r => (st + l.length + r.length, [st % 256]), fun st => [42, st % 256]⟩
        0 [1, 2, 3] [4, 5, 6] =
      encodeBlockPairs
        ⟨fun st l r => (st + l.length + r.length, [st % 256]), fun st => [42, st % 256]⟩
        0 ((mp3Blocks [1, 2, 3]).zip (mp3Blocks [4, 5, 6])) :=
  (mp3_block_accumulation
      ⟨fun st l r => (st + l.length + r.length, [st % 256]), fun st => [42, st % 256]⟩
      0).2.2.2.1 0 [1, 2, 3] [4, 5, 6] (by decide)

end AudioEdit
